import Mathlib

/-!
Verification of the markdown-filter pipeline: a shallow embedding of the
table/page classification code (cell metrics, heading detection, table
analysis, decision engines, HTML-table emission and markdown table
extraction) together with proofs relating it to its natural-language
specification.

Python semantics are modelled over `List Char` and `Nat`/`Int`; regular
expressions used by the code are embedded as executable character scanners
with the same matching semantics on the ASCII inputs the pipeline handles.
-/

namespace MarkdownFilter

/-! ## Character and string helpers -/

/-- Whitespace characters recognised by Python `str.strip` and the regex
class backslash-s (ASCII range). -/
def pyWhitespace (c : Char) : Bool :=
  c = ' ' || c = '\t' || c = '\n' || c = '\r' || c = '\x0b' || c = '\x0c'

/-- Word characters of the regex class backslash-w (ASCII): letters, digits
and underscore. -/
def isWordChar (c : Char) : Bool :=
  c.isAlpha || c.isDigit || c = '_'

/-- Drop elements satisfying `p` from the end of a list. -/
def dropTrailing (p : Char → Bool) (l : List Char) : List Char :=
  (l.reverse.dropWhile p).reverse

/-- Trim characters satisfying `p` from both ends. -/
def trimBy (p : Char → Bool) (l : List Char) : List Char :=
  dropTrailing p (l.dropWhile p)

/-- Python `str.strip()` on a character list. -/
def pyStripL (l : List Char) : List Char :=
  trimBy pyWhitespace l

/-- Python `str.strip()`. -/
def pyStrip (s : String) : String :=
  String.mk (pyStripL s.toList)

/-- Python `str.strip(chars)`: trim any of the given characters from both
ends. -/
def stripCharSet (set : List Char) (l : List Char) : List Char :=
  trimBy (fun c => set.contains c) l

/-- Lower-case a string character-wise (Python `str.lower` on ASCII). -/
def lowerStr (s : String) : String :=
  String.mk (s.toList.map Char.toLower)

/-- Maximal runs of characters satisfying `p` (accumulator holds the
current run reversed).  With `p := isWordChar` this is exactly
`re.findall` of the pattern boundary-w+-boundary. -/
def runsAux (p : Char → Bool) : List Char → List Char → List (List Char)
  | [], cur => if cur.isEmpty then [] else [cur.reverse]
  | c :: cs, cur =>
    if p c then runsAux p cs (c :: cur)
    else if cur.isEmpty then runsAux p cs []
    else cur.reverse :: runsAux p cs []

/-- All words of a string: `re.findall(r"\b\w+\b", text)`. -/
def findWords (s : String) : List String :=
  (runsAux isWordChar s.toList []).map String.mk

/-! ## Regex scanners used by `cell_metrics` -/

/-- Length of a match of `https?://[^\s)]+` anchored at the start of the
list, if any. -/
def linkMatchLen (l : List Char) : Option Nat :=
  let scheme : Option Nat :=
    if "https://".toList.isPrefixOf l then some 8
    else if "http://".toList.isPrefixOf l then some 7
    else none
  match scheme with
  | none => none
  | some n =>
    let body := (l.drop n).takeWhile (fun c => !(pyWhitespace c) && c ≠ ')')
    if body.isEmpty then none else some (n + body.length)

/-- Count non-overlapping matches of `https?://[^\s)]+`, scanning left to
right (fuel bounds the recursion; every step consumes at least one
character). -/
def countLinksAux : Nat → List Char → Nat
  | 0, _ => 0
  | _, [] => 0
  | fuel + 1, l@(_ :: rest) =>
    match linkMatchLen l with
    | some n => 1 + countLinksAux fuel (l.drop n)
    | none => countLinksAux fuel rest

/-- `len(re.findall(r"https?://[^\s)]+", text))`. -/
def count_links (s : String) : Nat :=
  countLinksAux s.toList.length s.toList

/-- Try to match one of the given (lower-case) extensions at the start of
`l`, case-insensitively, requiring a word boundary after the extension.
Alternatives are tried in order, as the regex engine does. -/
def extAltMatch (exts : List (List Char)) (l : List Char) : Option Nat :=
  match exts with
  | [] => none
  | e :: es =>
    if ((l.take e.length).map Char.toLower = e) ∧ (e.length ≤ l.length) ∧
       ((match (l.drop e.length).head? with
         | some c => !(isWordChar c)
         | none => true) = true) then
      some e.length
    else extAltMatch es l

/-- Attempt a match of `\b\S+\.(ext|…)\b` at the start of `l`, where
`prevIsWord` tells whether the character before `l` is a word character
(false at the start of the text).  The non-space run backtracks from its
maximal length, as the greedy regex does.  Returns the matched length. -/
def extTryLen (exts : List (List Char)) (l : List Char) : Nat → Option Nat
  | 0 => none
  | k + 1 =>
    (match (l.drop (k + 1)).head? with
     | some c =>
       if c = '.' then
         match extAltMatch exts (l.drop (k + 2)) with
         | some n => some (k + 2 + n)
         | none => none
       else none
     | none => none).orElse (fun _ => extTryLen exts l k)

/-- Match `\b\S+\.(ext|…)\b` anchored at the start of `l` (boundary against
`prevIsWord`). -/
def extMatchAt (exts : List (List Char)) (prevIsWord : Bool) (l : List Char) :
    Option Nat :=
  match l with
  | [] => none
  | c :: _ =>
    if prevIsWord = isWordChar c then none
    else
      let run := l.takeWhile (fun ch => !(pyWhitespace ch))
      extTryLen exts l run.length

/-- Count non-overlapping matches of `\b\S+\.(ext|…)\b` left to right.
After a match the previous character is the extension's final letter,
hence a word character. -/
def countExtAux (exts : List (List Char)) : Nat → Bool → List Char → Nat
  | 0, _, _ => 0
  | _, _, [] => 0
  | fuel + 1, prevW, l@(c :: rest) =>
    match extMatchAt exts prevW l with
    | some n => 1 + countExtAux exts fuel true (l.drop n)
    | none => countExtAux exts fuel (isWordChar c) rest

/-- Alternatives of the image-extension regex, in the source's order. -/
def imageExts : List (List Char) :=
  ["png".toList, "jpg".toList, "jpeg".toList, "gif".toList,
   "svg".toList, "bmp".toList, "webp".toList]

/-- Alternatives of the file-extension regex `pdf|docx?|xlsx?|csv|pptx?`,
expanded in greedy order. -/
def fileExts : List (List Char) :=
  ["pdf".toList, "docx".toList, "doc".toList, "xlsx".toList,
   "xls".toList, "csv".toList, "pptx".toList, "ppt".toList]

/-- `len(re.findall(r"\b\S+\.(png|jpg|jpeg|gif|svg|bmp|webp)\b", text, re.I))`. -/
def countImages (s : String) : Nat :=
  countExtAux imageExts s.toList.length false s.toList

/-- `len(re.findall(r"\b\S+\.(pdf|docx?|xlsx?|csv|pptx?)\b", text, re.I))`. -/
def countFiles (s : String) : Nat :=
  countExtAux fileExts s.toList.length false s.toList

/-- Match a user mention `\[~[^\]]+\]` anchored at the start of `l`. -/
def mentionMatchLen (l : List Char) : Option Nat :=
  match l with
  | '[' :: '~' :: rest =>
    let body := rest.takeWhile (fun c => c ≠ ']')
    if body.isEmpty then none
    else match (rest.drop body.length).head? with
      | some ']' => some (2 + body.length + 1)
      | _ => none
  | _ => none

/-- Count non-overlapping user mentions left to right. -/
def countMentionsAux : Nat → List Char → Nat
  | 0, _ => 0
  | _, [] => 0
  | fuel + 1, l@(_ :: rest) =>
    match mentionMatchLen l with
    | some n => 1 + countMentionsAux fuel (l.drop n)
    | none => countMentionsAux fuel rest

/-- `count_mentions_in_text` of `check_markdown.py` (the count component). -/
def count_mentions_in_text (s : String) : Nat :=
  countMentionsAux s.toList.length s.toList

/-! ## Word classification (`cell_metrics`) -/

/-- The placeholder vocabulary of `cell_metrics`. -/
def PLACEHOLDER_WORDS : List String :=
  ["draft", "tbd", "yes", "no", "none", "n/a", "na", "todo", "pending",
   "ok", "done", "wip", "placeholder", "example", "sample", "test",
   "tmp", "temp", "xxx", "yyy", "zzz", "abc", "tba", "high", "low",
   "medium", "medium-high", "medium-low", "high-medium", "low-medium",
   "high-low", "low-high", "status"]

/-- Remainders after consuming between zero and `n` copies of `c` from the
front of the list. -/
def repUpTo (c : Char) : Nat → List Char → List (List Char)
  | 0, l => [l]
  | n + 1, l =>
    l :: (match l with
          | x :: rest => if x = c then repUpTo c n rest else []
          | [] => [])

/-- Remainders after consuming a literal at the front of the list. -/
def litRem (pat : List Char) (l : List Char) : List (List Char) :=
  if pat.isPrefixOf l then [l.drop pat.length] else []

/-- Remainders of the hundreds group `(cm|cd|d?c{0,3})`. -/
def romanHundreds (l : List Char) : List (List Char) :=
  litRem ['c', 'm'] l ++ litRem ['c', 'd'] l ++
    (repUpTo 'd' 1 l).flatMap (repUpTo 'c' 3)

/-- Remainders of the tens group `(xc|xl|l?x{0,3})`. -/
def romanTens (l : List Char) : List (List Char) :=
  litRem ['x', 'c'] l ++ litRem ['x', 'l'] l ++
    (repUpTo 'l' 1 l).flatMap (repUpTo 'x' 3)

/-- Remainders of the units group `(ix|iv|v?i{0,3})`. -/
def romanUnits (l : List Char) : List (List Char) :=
  litRem ['i', 'x'] l ++ litRem ['i', 'v'] l ++
    (repUpTo 'v' 1 l).flatMap (repUpTo 'i' 3)

/-- Full match of the roman-numeral regex
`m{0,4}(cm|cd|d?c{0,3})(xc|xl|l?x{0,3})(ix|iv|v?i{0,3})`
(with backtracking: some choice of alternatives consumes the whole
input). -/
def romanFullMatch (l : List Char) : Bool :=
  ((((repUpTo 'm' 4 l).flatMap romanHundreds).flatMap romanTens).flatMap
      romanUnits).any List.isEmpty

/-- `is_index_pattern` of `cell_metrics`: numeric, roman-numeral, single
letter, or short repeated-letter words. -/
def is_index_pattern (word : String) : Bool :=
  let wc := (pyStripL word.toList).map Char.toLower
  if !wc.isEmpty && wc.all Char.isDigit then true
  else if !wc.isEmpty && wc.all (fun c => ['i','v','x','l','c','d','m'].contains c)
          && romanFullMatch wc then true
  else if wc.length = 1 && wc.all Char.isAlpha then true
  else if wc.length ≤ 3 && !wc.isEmpty &&
          (match wc with
           | c :: _ => wc.all (fun x => x = c) && c.isAlpha
           | [] => false) then true
  else false

/-- Classify each word into exactly one of the meaningful / placeholder /
index buckets, preserving order, exactly as the loop of `cell_metrics`
does. -/
def classifyWords : List String → List String × List String × List String
  | [] => ([], [], [])
  | w :: ws =>
    let rest := classifyWords ws
    let cleanWord := String.mk (stripCharSet ['*', '_'] (lowerStr w).toList)
    if is_index_pattern w then (rest.1, rest.2.1, w :: rest.2.2)
    else if PLACEHOLDER_WORDS.contains cleanWord then (rest.1, w :: rest.2.1, rest.2.2)
    else (w :: rest.1, rest.2.1, rest.2.2)

/-- Result record of `cell_metrics`. -/
structure CellMetrics where
  text : String
  words : Nat
  meaningful_words : Nat
  placeholder_words : Nat
  meaningful_word_list : List String
  placeholder_word_list : List String
  index_word_list : List String
  links : Nat
  images : Nat
  files : Nat
  mentions : Nat
  empty : Bool
  has_useful_content : Bool
deriving DecidableEq

/-- `cell_metrics` of `check_markdown.py`: per-cell word classification and
link / image / file / mention counts.  The `placeholder_words` count
includes the index words, as in the source. -/
def cell_metrics (cell_text : String) : CellMetrics :=
  let text := cell_text
  let isEmptyCell := (pyStripL text.toList).isEmpty
  let all_words := if isEmptyCell then [] else findWords text
  let cls := classifyWords all_words
  let meaningfulList := cls.1
  let placeholderList := cls.2.1
  let indexList := cls.2.2
  let links := count_links text
  let images := countImages text
  let files := countFiles text
  let mentions := count_mentions_in_text text
  { text := text
    words := all_words.length
    meaningful_words := meaningfulList.length
    placeholder_words := placeholderList.length + indexList.length
    meaningful_word_list := meaningfulList
    placeholder_word_list := placeholderList
    index_word_list := indexList
    links := links
    images := images
    files := files
    mentions := mentions
    empty := isEmptyCell
    has_useful_content :=
      meaningfulList.length ≥ 2 || links > 0 || images > 0 || files > 0 ||
        mentions > 0 }

/-- Each word is put into exactly one bucket by `classifyWords`. -/
theorem classifyWords_length_partition (ws : List String) :
    (classifyWords ws).1.length + (classifyWords ws).2.1.length +
      (classifyWords ws).2.2.length = ws.length := by
  induction ws with
  | nil => rfl
  | cons w ws ih =>
    simp only [classifyWords]
    split
    · simp only [List.length_cons]; omega
    · split
      · simp only [List.length_cons]; omega
      · simp only [List.length_cons]; omega

/-- C5: for every cell string, the three word buckets computed by
`cell_metrics` partition the cell's words: the number of meaningful words
plus the number of placeholder words plus the number of index words equals
the total word count. -/
theorem c5_cell_word_partition (s : String) :
    (cell_metrics s).meaningful_word_list.length +
      (cell_metrics s).placeholder_word_list.length +
      (cell_metrics s).index_word_list.length = (cell_metrics s).words := by
  simp only [cell_metrics]
  exact classifyWords_length_partition _

/-! ## Heading detection (`detect_table_heading`) -/

/-- Heading shapes a grid can have. -/
inductive HType where
  | hnone
  | hrow
  | hcolumn
  | hboth
deriving DecidableEq

/-- Result record of `detect_table_heading`. -/
structure HeadingResult where
  column_headers : Option (List String)
  row_headers : Option (List String)
  heading_type : HType
  is_key_value_table : Bool
deriving DecidableEq

/-- Python truthiness of an optional list (None and the empty list are
falsy). -/
def optListTruthy (o : Option (List String)) : Bool :=
  match o with
  | some l => !l.isEmpty
  | none => false

/-- The bold-cell pattern `^\s*\*\*(.+?)\*\*\s*$` applied to the stripped
cell: it matches exactly when the stripped text starts and ends with a
double star, has at least one character in between, and that middle part
contains no newline (the dot does not match newlines). -/
def is_bold_cell (cell : String) : Bool :=
  let t := pyStripL cell.toList
  t.length ≥ 5 && ['*', '*'].isPrefixOf t && ['*', '*'].isSuffixOf t &&
    !(t.contains '\n')

/-- `extract_bold_text`: the stripped group of the bold pattern, or the
stripped cell when the pattern does not match. -/
def extract_bold_text (cell : String) : String :=
  let t := pyStripL cell.toList
  if is_bold_cell cell then String.mk (pyStripL ((t.drop 2).dropLast.dropLast))
  else String.mk t

/-- Width of a grid: the maximum row length (0 for an empty grid). -/
def maxRowLen (table : List (List String)) : Nat :=
  (table.map List.length).foldr max 0

/-- Pad every row with empty cells to the grid width. -/
def normalizeTable (table : List (List String)) : List (List String) :=
  table.map (fun r => r ++ List.replicate (maxRowLen table - r.length) "")

/-- First row of the normalized grid. -/
def firstRowCells (table : List (List String)) : List String :=
  (normalizeTable table).headD []

/-- First column of the normalized grid (every normalized row is
non-empty when the grid width is positive). -/
def firstColCells (table : List (List String)) : List String :=
  (normalizeTable table).map (fun r => r.headD "")

/-- Second column of the normalized grid (empty string where a row has no
second cell). -/
def secondColCells (table : List (List String)) : List String :=
  (normalizeTable table).map (fun r => (r.drop 1).headD "")

/-- All non-empty cells of the first row are bold (and there is at least
one). -/
def allFirstRowBold (table : List (List String)) : Bool :=
  let ne := (firstRowCells table).filter (fun c => !(pyStripL c.toList).isEmpty)
  ne.length > 0 && ne.all is_bold_cell

/-- All non-empty cells of the first column are bold (and there is at
least one). -/
def allFirstColBold (table : List (List String)) : Bool :=
  let ne := (firstColCells table).filter (fun c => !(pyStripL c.toList).isEmpty)
  ne.length > 0 && ne.all is_bold_cell

/-- The implicit key/value rule: exactly two columns, no bold headers,
first column at least half filled and second column at most half filled
(the Python comparisons against `rows * 0.5` are exact once multiplied by
two). -/
def isKeyValueHeuristic (table : List (List String)) : Bool :=
  let rows := table.length
  maxRowLen table = 2 && !allFirstColBold table && !allFirstRowBold table &&
    (2 * ((firstColCells table).filter
        (fun c => !(pyStripL c.toList).isEmpty)).length ≥ rows) &&
    (2 * ((secondColCells table).filter
        (fun c => !(pyStripL c.toList).isEmpty)).length ≤ rows)

/-- One cell of the header-promotion heuristic: empty cells are fine,
non-empty cells must have at most four words and must not start with
`e.g.`. -/
def headerCellOk (cell : String) : Bool :=
  let cs := pyStripL cell.toList
  if cs.isEmpty then true
  else (runsAux isWordChar cs []).length ≤ 4 &&
    !("e.g.".toList.isPrefixOf (cs.map Char.toLower))

/-- Number of non-empty cells of the first row. -/
def firstRowNonEmptyCount (table : List (List String)) : Nat :=
  ((firstRowCells table).filter (fun c => !(pyStripL c.toList).isEmpty)).length

/-- `detect_table_heading` of `check_markdown.py`. -/
def detect_table_heading (table : List (List String)) : HeadingResult :=
  if table.isEmpty || table.all List.isEmpty then
    { column_headers := none, row_headers := none,
      heading_type := HType.hnone, is_key_value_table := false }
  else
    let rows := table.length
    let cols := maxRowLen table
    if rows = 0 || cols = 0 then
      { column_headers := none, row_headers := none,
        heading_type := HType.hnone, is_key_value_table := false }
    else
      let norm_table := normalizeTable table
      let first_row := firstRowCells table
      let rowBold := allFirstRowBold table
      let colBold := allFirstColBold table
      let is_key_value_table := isKeyValueHeuristic table
      let column_headers0 : Option (List String) :=
        if rowBold then some (first_row.map extract_bold_text) else none
      let row_headers : Option (List String) :=
        if colBold || is_key_value_table then
          let start_row := if rowBold then 1 else 0
          some ((norm_table.drop start_row).map (fun r =>
            if colBold then extract_bold_text (r.headD "")
            else pyStrip (r.headD "")))
        else none
      let column_headers : Option (List String) :=
        match column_headers0 with
        | some h => some h
        | none =>
          if first_row.all headerCellOk && firstRowNonEmptyCount table ≥ 2 then
            some (first_row.map pyStrip)
          else none
      let ct := optListTruthy column_headers
      let rt := optListTruthy row_headers
      let heading_type :=
        if ct && rt then HType.hboth
        else if ct then HType.hcolumn
        else if rt then HType.hrow
        else HType.hnone
      { column_headers := column_headers, row_headers := row_headers,
        heading_type := heading_type, is_key_value_table := is_key_value_table }

/-! ## Table analysis (`analyze_table_content`) -/

/-- Per-row summary produced by `analyze_table_content` (the nested
`cell_metrics` echo and the empty-block list are elided: no claim reads
them). -/
structure RowSummary where
  row_index : Nat
  cols : Nat
  word_count : Nat
  meaningful_words : Nat
  placeholder_words : Nat
  links : Nat
  images : Nat
  files : Nat
  mentions : Nat
  empty_cell_count : Nat
deriving DecidableEq

/-- Analysis record produced by `analyze_table_content` (the float
`fill_percentage` and the coordinate list are elided: no claim reads
them, and the table decision engine ignores them). -/
structure Analysis where
  rows : Nat
  cols : Nat
  total_cells : Nat
  filled_cells : Nat
  words : Nat
  meaningful_words : Nat
  placeholder_words : Nat
  links : Nat
  images : Nat
  files : Nat
  mentions : Nat
  empty_cell_count : Nat
  empty_rows : List Nat
  empty_columns : List Nat
  per_row_summaries : List RowSummary
  cell_metrics_grid : List (List CellMetrics)
  is_empty_table : Bool
  is_useful_table : Bool
  headings : Option HeadingResult
deriving DecidableEq

/-- Is the cell at row `rIdx`, column `cIdx` a header cell, given the
detected heading shape? -/
def isHeaderCellAt (hasCH hasRH : Bool) (rIdx cIdx : Nat) : Bool :=
  (hasCH && rIdx = 0) || (hasRH && cIdx = 0)

/-- Summary of one row of cell metrics: word counts over non-header cells
only, link / image / file / mention counts over all cells. -/
def rowSummaryOf (hasCH hasRH : Bool) (rIdx : Nat) (row : List CellMetrics) :
    RowSummary :=
  let dataCells := (row.enum.filter
    (fun p => !isHeaderCellAt hasCH hasRH rIdx p.1)).map Prod.snd
  { row_index := rIdx
    cols := row.length
    word_count := (dataCells.map (·.words)).sum
    meaningful_words := (dataCells.map (·.meaningful_words)).sum
    placeholder_words := (dataCells.map (·.placeholder_words)).sum
    links := (row.map (·.links)).sum
    images := (row.map (·.images)).sum
    files := (row.map (·.files)).sum
    mentions := (row.map (·.mentions)).sum
    empty_cell_count := row.countP (·.empty) }

/-- `analyze_table_content` of `check_markdown.py`.  The
`label_col_count` argument defaults to 1 in the source; callers here pass
it explicitly. -/
def analyze_table_content (table : List (List String))
    (label_col_count : Nat) : Analysis :=
  if table.isEmpty then
    { rows := 0, cols := 0, total_cells := 0, filled_cells := 0,
      words := 0, meaningful_words := 0, placeholder_words := 0,
      links := 0, images := 0, files := 0, mentions := 0,
      empty_cell_count := 0, empty_rows := [], empty_columns := [],
      per_row_summaries := [], cell_metrics_grid := [],
      is_empty_table := true, is_useful_table := false, headings := none }
  else
    let rows := table.length
    let cols := maxRowLen table
    let norm_table := normalizeTable table
    let headings := detect_table_heading table
    let hasCH := headings.heading_type = HType.hcolumn ||
      headings.heading_type = HType.hboth
    let hasRH := headings.heading_type = HType.hrow ||
      headings.heading_type = HType.hboth
    let cell_metrics_grid := norm_table.map (fun r => r.map cell_metrics)
    let per_row_summaries := cell_metrics_grid.enum.map
      (fun p => rowSummaryOf hasCH hasRH p.1 p.2)
    let allCells := cell_metrics_grid.flatten
    let dataCellsFlat := (cell_metrics_grid.enum.map (fun p =>
      (p.2.enum.filter (fun q => !isHeaderCellAt hasCH hasRH p.1 q.1)).map
        Prod.snd)).flatten
    { rows := rows
      cols := cols
      total_cells := rows * cols
      filled_cells := allCells.countP (fun cm => !cm.empty)
      words := (dataCellsFlat.map (·.words)).sum
      meaningful_words := (dataCellsFlat.map (·.meaningful_words)).sum
      placeholder_words := (dataCellsFlat.map (·.placeholder_words)).sum
      links := (allCells.map (·.links)).sum
      images := (allCells.map (·.images)).sum
      files := (allCells.map (·.files)).sum
      mentions := (allCells.map (·.mentions)).sum
      empty_cell_count := allCells.countP (·.empty)
      empty_rows := (per_row_summaries.filter
        (fun rs => rs.empty_cell_count = cols)).map (·.row_index)
      empty_columns := (List.range cols).filter (fun j =>
        cell_metrics_grid.countP (fun row =>
          match row.get? j with
          | some cm => cm.empty
          | none => false) = rows)
      per_row_summaries := per_row_summaries
      cell_metrics_grid := cell_metrics_grid
      is_empty_table := (norm_table.map (fun r => r.drop label_col_count)).flatten.all
        (fun c => (cell_metrics c).empty)
      is_useful_table := dataCellsFlat.any (·.has_useful_content)
      headings := some headings }

/-! ## Table decision engine (`table_logic.py`) -/

/-- Verdicts of the table decision engine. -/
inductive Verdict where
  | USEFUL
  | GIBBERISH
  | CANT_DECIDE
deriving DecidableEq

/-- `check_priority_content`: links are checked before files, files before
images, images before mentions; any positive count makes the check
succeed. -/
def check_priority_content (a : Analysis) : Bool :=
  if a.links > 0 then true
  else if a.files > 0 then true
  else if a.images > 0 then true
  else if a.mentions > 0 then true
  else false

/-- `check_cell_word_count`: some cell outside the first row has more than
five meaningful words (the loop skips row index 0). -/
def check_cell_word_count (a : Analysis) : Bool :=
  (a.cell_metrics_grid.drop 1).any (fun row =>
    row.any (fun cm => cm.meaningful_words > 5))

/-- Column `j` has content: some cell of a data row (rows after the first)
in that column has a positive meaningful-word count. -/
def colHasContent (a : Analysis) (j : Nat) : Bool :=
  (a.cell_metrics_grid.drop 1).any (fun row =>
    match row.get? j with
    | some cm => cm.meaningful_words > 0
    | none => false)

/-- `check_first_row_only_filled`: with more than one row, no data-row
summary has meaningful words or links. -/
def check_first_row_only_filled (a : Analysis) : Bool :=
  if a.rows ≤ 1 then false
  else (a.per_row_summaries.drop 1).countP
    (fun r => r.meaningful_words > 0 || r.links > 0) = 0

/-- `check_first_column_only_filled`: with more than one column, exactly
one column has content and it is column 0. -/
def check_first_column_only_filled (a : Analysis) : Bool :=
  if a.cols ≤ 1 then false
  else
    ((List.range a.cols).filter (colHasContent a)).length = 1 &&
      colHasContent a 0

/-- Meaningful words of the first per-row summary (the header row). -/
def headerRowMeaningful (a : Analysis) : Nat :=
  match a.per_row_summaries with
  | r :: _ => r.meaningful_words
  | [] => 0

/-- Meaningful words summed over the data-row summaries. -/
def dataRowsMeaningful (a : Analysis) : Nat :=
  ((a.per_row_summaries.drop 1).map (·.meaningful_words)).sum

/-- `check_header_heavy_table`: the header row holds more than seventy per
cent of the meaningful words (the float percentage comparison is exact on
these integers). -/
def check_header_heavy_table (a : Analysis) : Bool :=
  if a.rows ≤ 1 || a.per_row_summaries.isEmpty then false
  else if headerRowMeaningful a + dataRowsMeaningful a = 0 then false
  else 100 * headerRowMeaningful a >
    70 * (headerRowMeaningful a + dataRowsMeaningful a)

/-- `check_single_row_or_column_filled`: exactly one data row anywhere, or
exactly one column anywhere, has content. -/
def check_single_row_or_column_filled (a : Analysis) : Bool :=
  if a.rows ≤ 1 || a.cols ≤ 1 then false
  else
    (a.cell_metrics_grid.drop 1).countP (fun row =>
      row.any (fun cm => cm.meaningful_words > 0)) = 1 ||
    ((List.range a.cols).filter (colHasContent a)).length = 1

/-- `decide_table_quality` of `table_logic.py`: the ordered rule chain
(the guard on a falsy analysis dictionary cannot fire on a record, and
the fill percentage feeds only the textual report, not the verdict). -/
def decide_table_quality (a : Analysis) : Verdict :=
  if check_priority_content a then Verdict.USEFUL
  else if check_cell_word_count a then Verdict.USEFUL
  else if check_first_row_only_filled a then Verdict.GIBBERISH
  else if check_first_column_only_filled a then Verdict.GIBBERISH
  else if check_header_heavy_table a then Verdict.GIBBERISH
  else if check_single_row_or_column_filled a then Verdict.GIBBERISH
  else if a.meaningful_words ≥ 3 then Verdict.USEFUL
  else if a.meaningful_words = 0 then Verdict.GIBBERISH
  else Verdict.CANT_DECIDE

/-- `is_small_key_value_table`: two columns and at most four rows. -/
def is_small_key_value_table (a : Analysis) : Bool :=
  a.cols = 2 && a.rows ≤ 4

/-- `decide_table_quality_with_context` of `table_logic.py`.  Both
branches after a subsequent table is found return GIBBERISH; they differ
only in the textual reason. -/
def decide_table_quality_with_context (a : Analysis)
    (all_tables : Option (List Analysis)) (current_table_index : Option Nat) :
    Verdict :=
  match all_tables with
  | none => decide_table_quality a
  | some ts =>
    if !is_small_key_value_table a then decide_table_quality a
    else
      let subsequent :=
        match current_table_index with
        | some i => ts.drop (i + 1)
        | none => []
      if subsequent.isEmpty then decide_table_quality a
      else
        let has_useful_subsequent := subsequent.any
          (fun tbl => decide_table_quality tbl = Verdict.USEFUL)
        if has_useful_subsequent then Verdict.GIBBERISH
        else Verdict.GIBBERISH

/-- `is_table_gibberish` of `table_logic.py` (verdict component): uses the
context-aware decision when a table list is supplied. -/
def is_table_gibberish (a : Analysis) (all_tables : Option (List Analysis))
    (current_table_index : Option Nat) : Bool :=
  let decision :=
    match all_tables with
    | some _ => decide_table_quality_with_context a all_tables current_table_index
    | none => decide_table_quality a
  decision = Verdict.GIBBERISH

/-! ## The specified rule list of C1

The following definitions transcribe the claim's wording of the ordered
rule list.  `specDecideC1` is the literal reading; `specDecideC1Amended`
adds the size guards that the code imposes on the structural checks. -/

/-- Rule 1 of the claim: the analysis records any links, files, images, or
user mentions. -/
def specHasPriorityContent (a : Analysis) : Bool :=
  a.links > 0 || a.files > 0 || a.images > 0 || a.mentions > 0

/-- Rule 2 of the claim: some cell outside the header row has more than
five meaningful words. -/
def specRichDataCell (a : Analysis) : Bool :=
  (a.cell_metrics_grid.drop 1).any (fun row =>
    row.any (fun cm => 5 < cm.meaningful_words))

/-- Rule 3a of the claim: all data rows have zero meaningful words and
zero links. -/
def specAllDataRowsEmpty (a : Analysis) : Bool :=
  (a.per_row_summaries.drop 1).all
    (fun r => r.meaningful_words = 0 && r.links = 0)

/-- Rule 3b of the claim: exactly one data column has content and it is
column 0. -/
def specOnlyFirstColumnContent (a : Analysis) : Bool :=
  (List.range a.cols).filter (colHasContent a) = [0]

/-- Rule 3c of the claim: the header row holds more than 70 per cent of
the table's total meaningful words. -/
def specHeaderHeavy (a : Analysis) : Bool :=
  100 * headerRowMeaningful a >
    70 * (headerRowMeaningful a + dataRowsMeaningful a)

/-- Rule 3d of the claim: exactly one data row, or exactly one data
column (anywhere), has content. -/
def specSingleRowOrColumn (a : Analysis) : Bool :=
  ((a.cell_metrics_grid.drop 1).filter (fun row =>
    row.any (fun cm => cm.meaningful_words > 0))).length = 1 ||
  ((List.range a.cols).filter (colHasContent a)).length = 1

/-- The rule list exactly as the claim states it (structural checks fire
whenever their condition holds, with no size guards). -/
def specDecideC1 (a : Analysis) : Verdict :=
  if specHasPriorityContent a then Verdict.USEFUL
  else if specRichDataCell a then Verdict.USEFUL
  else if specAllDataRowsEmpty a then Verdict.GIBBERISH
  else if specOnlyFirstColumnContent a then Verdict.GIBBERISH
  else if specHeaderHeavy a then Verdict.GIBBERISH
  else if specSingleRowOrColumn a then Verdict.GIBBERISH
  else if 3 ≤ a.meaningful_words then Verdict.USEFUL
  else if a.meaningful_words = 0 then Verdict.GIBBERISH
  else Verdict.CANT_DECIDE

/-- The amended rule list: the row-based structural checks require at
least two rows, the column-based ones at least two columns, as the code
enforces. -/
def specDecideC1Amended (a : Analysis) : Verdict :=
  if specHasPriorityContent a then Verdict.USEFUL
  else if specRichDataCell a then Verdict.USEFUL
  else if decide (2 ≤ a.rows) && specAllDataRowsEmpty a then Verdict.GIBBERISH
  else if decide (2 ≤ a.cols) && specOnlyFirstColumnContent a then Verdict.GIBBERISH
  else if decide (2 ≤ a.rows) && specHeaderHeavy a then Verdict.GIBBERISH
  else if decide (2 ≤ a.rows) && (decide (2 ≤ a.cols) && specSingleRowOrColumn a) then
    Verdict.GIBBERISH
  else if 3 ≤ a.meaningful_words then Verdict.USEFUL
  else if a.meaningful_words = 0 then Verdict.GIBBERISH
  else Verdict.CANT_DECIDE

/-! ### Bridging lemmas between the code checks and the specified rules -/

theorem check_priority_eq (a : Analysis) :
    check_priority_content a = specHasPriorityContent a := by
  unfold check_priority_content specHasPriorityContent
  by_cases h1 : a.links > 0 <;> by_cases h2 : a.files > 0 <;>
    by_cases h3 : a.images > 0 <;> by_cases h4 : a.mentions > 0 <;>
    simp [h1, h2, h3, h4]

theorem check_cell_word_eq (a : Analysis) :
    check_cell_word_count a = specRichDataCell a := rfl

theorem check_first_row_eq (a : Analysis) :
    check_first_row_only_filled a =
      (decide (2 ≤ a.rows) && specAllDataRowsEmpty a) := by
  unfold check_first_row_only_filled specAllDataRowsEmpty
  by_cases h : a.rows ≤ 1
  · rw [if_pos h, decide_eq_false (by omega : ¬ (2 ≤ a.rows)), Bool.false_and]
  · rw [if_neg h, decide_eq_true (by omega : 2 ≤ a.rows), Bool.true_and]
    apply Bool.eq_iff_iff.mpr
    simp only [decide_eq_true_eq, List.countP_eq_zero, List.all_eq_true]
    constructor
    · intro hz r hr
      have := hz r hr
      simp only [Bool.or_eq_true, decide_eq_true_eq, not_or] at this
      simp only [Bool.and_eq_true, decide_eq_true_eq]
      omega
    · intro hall r hr
      have := hall r hr
      simp only [Bool.and_eq_true, decide_eq_true_eq] at this
      simp only [Bool.or_eq_true, decide_eq_true_eq, not_or]
      omega

theorem filter_range_singleton_zero (n : Nat) (p : Nat → Bool) (hn : 0 < n) :
    ((List.range n).filter p = [0]) ↔
      (((List.range n).filter p).length = 1 ∧ p 0 = true) := by
  constructor
  · intro h
    refine ⟨by rw [h]; rfl, ?_⟩
    have h0 : 0 ∈ (List.range n).filter p := by rw [h]; simp
    exact (List.mem_filter.mp h0).2
  · rintro ⟨hlen, hp0⟩
    rcases List.length_eq_one.mp hlen with ⟨x, hx⟩
    have h0 : 0 ∈ (List.range n).filter p :=
      List.mem_filter.mpr ⟨List.mem_range.mpr hn, hp0⟩
    rw [hx] at h0 ⊢
    simp only [List.mem_singleton] at h0
    rw [h0]

theorem check_first_col_eq (a : Analysis) :
    check_first_column_only_filled a =
      (decide (2 ≤ a.cols) && specOnlyFirstColumnContent a) := by
  unfold check_first_column_only_filled specOnlyFirstColumnContent
  by_cases h : a.cols ≤ 1
  · rw [if_pos h, decide_eq_false (by omega : ¬ (2 ≤ a.cols)), Bool.false_and]
  · rw [if_neg h, decide_eq_true (by omega : 2 ≤ a.cols), Bool.true_and]
    apply Bool.eq_iff_iff.mpr
    simp only [Bool.and_eq_true, decide_eq_true_eq]
    rw [filter_range_singleton_zero a.cols (colHasContent a) (by omega)]

theorem check_header_heavy_eq (a : Analysis) :
    check_header_heavy_table a = (decide (2 ≤ a.rows) && specHeaderHeavy a) := by
  unfold check_header_heavy_table specHeaderHeavy
  by_cases h : a.rows ≤ 1
  · rw [decide_eq_true h, Bool.true_or, if_pos rfl,
      decide_eq_false (by omega : ¬ (2 ≤ a.rows)), Bool.false_and]
  · rw [decide_eq_false h, Bool.false_or,
      decide_eq_true (by omega : 2 ≤ a.rows), Bool.true_and]
    by_cases he : a.per_row_summaries.isEmpty = true
    · have h0 : headerRowMeaningful a = 0 := by
        unfold headerRowMeaningful
        rw [List.isEmpty_iff.mp he]
      have h1 : dataRowsMeaningful a = 0 := by
        unfold dataRowsMeaningful
        rw [List.isEmpty_iff.mp he]
        rfl
      rw [he, if_pos rfl, h0, h1]
      rfl
    · rw [Bool.not_eq_true] at he
      rw [he, if_neg (by simp)]
      by_cases ht : headerRowMeaningful a + dataRowsMeaningful a = 0
      · rw [if_pos ht,
          decide_eq_false (by omega :
            ¬ (100 * headerRowMeaningful a >
               70 * (headerRowMeaningful a + dataRowsMeaningful a)))]
      · rw [if_neg ht]

theorem check_single_eq (a : Analysis) :
    check_single_row_or_column_filled a =
      (decide (2 ≤ a.rows) && (decide (2 ≤ a.cols) && specSingleRowOrColumn a)) := by
  unfold check_single_row_or_column_filled specSingleRowOrColumn
  by_cases hr : a.rows ≤ 1
  · rw [decide_eq_true hr, Bool.true_or, if_pos rfl,
      decide_eq_false (by omega : ¬ (2 ≤ a.rows)), Bool.false_and]
  · by_cases hc : a.cols ≤ 1
    · rw [decide_eq_false hr, Bool.false_or, decide_eq_true hc, if_pos rfl,
        decide_eq_true (by omega : 2 ≤ a.rows), Bool.true_and,
        decide_eq_false (by omega : ¬ (2 ≤ a.cols)), Bool.false_and]
    · rw [decide_eq_false hr, decide_eq_false hc, Bool.false_or, if_neg (by simp),
        decide_eq_true (by omega : 2 ≤ a.rows),
        decide_eq_true (by omega : 2 ≤ a.cols), Bool.true_and, Bool.true_and,
        List.countP_eq_length_filter]

/-- C1, amended: the table decision engine applied without page context
follows the claimed ordered rule list, except that the structural checks
carry size guards: the all-data-rows-empty and header-heavy checks
require at least two rows, the only-first-column check at least two
columns, and the single-row-or-column check at least two rows and two
columns; with fewer rows or columns the corresponding check is skipped. -/
theorem c1_rule_chain_amended (a : Analysis) :
    decide_table_quality a = specDecideC1Amended a := by
  unfold decide_table_quality specDecideC1Amended
  rw [check_priority_eq, check_cell_word_eq, check_first_row_eq,
    check_first_col_eq, check_header_heavy_eq, check_single_eq]

/-- C1, counterexample: for the one-row table whose analysis the pipeline
itself produces, the engine returns USEFUL (nine meaningful words) while
the claimed rule list returns GIBBERISH, because with no data rows the
claim's rule "all data rows have zero meaningful words and zero links"
holds vacuously. -/
theorem c1_rule_chain_counterexample :
    decide_table_quality (analyze_table_content
        [["alpha beta gamma delta epsilon zeta", "another wordy cell"]] 1) =
      Verdict.USEFUL ∧
    specDecideC1 (analyze_table_content
        [["alpha beta gamma delta epsilon zeta", "another wordy cell"]] 1) =
      Verdict.GIBBERISH := by
  exact ⟨by decide, by decide⟩

/-! ## C3: the context override for small key/value tables -/

/-- C3: a 2-column table with at most 4 rows, decided with page context
(the full table list and this table's index): if at least one other table
follows it in the list the verdict is forced to GIBBERISH, and otherwise
the standard rule sequence is applied. -/
theorem c3_small_kv_context_override (a : Analysis) (ts : List Analysis)
    (i : Nat) (hc : a.cols = 2) (hr : a.rows ≤ 4) :
    (i + 1 < ts.length →
      decide_table_quality_with_context a (some ts) (some i) =
        Verdict.GIBBERISH) ∧
    (ts.length ≤ i + 1 →
      decide_table_quality_with_context a (some ts) (some i) =
        decide_table_quality a) := by
  have hkv : is_small_key_value_table a = true := by
    unfold is_small_key_value_table
    simp [hc, hr]
  unfold decide_table_quality_with_context
  rw [hkv]
  constructor
  · intro hlt
    have hne : (ts.drop (i + 1)).isEmpty = false := by
      rw [List.isEmpty_eq_false_iff_exists_mem]
      have : i + 1 < ts.length := hlt
      rcases List.exists_mem_of_length_pos (l := ts.drop (i + 1)) (by
        rw [List.length_drop]; omega) with ⟨x, hx⟩
      exact ⟨x, hx⟩
    simp only [Bool.not_true, Bool.false_eq_true, if_false, hne,
      Bool.false_eq_true]
    split <;> rfl
  · intro hge
    have hemp : (ts.drop (i + 1)).isEmpty = true := by
      rw [List.isEmpty_iff, List.drop_eq_nil_iff]
      exact hge
    simp [hemp]

/-- Witness for C3 at a concrete pipeline analysis: a 2-by-2 metadata
table followed by another table on the page is forced to GIBBERISH. -/
theorem c3_small_kv_context_override_witness :
    decide_table_quality_with_context
        (analyze_table_content [["Date", "tbd"], ["Owner", "tbd"]] 1)
        (some [analyze_table_content [["Date", "tbd"], ["Owner", "tbd"]] 1,
               analyze_table_content [["Date", "tbd"], ["Owner", "tbd"]] 1])
        (some 0) = Verdict.GIBBERISH :=
  (c3_small_kv_context_override
      (analyze_table_content [["Date", "tbd"], ["Owner", "tbd"]] 1)
      [analyze_table_content [["Date", "tbd"], ["Owner", "tbd"]] 1,
       analyze_table_content [["Date", "tbd"], ["Owner", "tbd"]] 1]
      0 (by decide) (by decide)).1 (by decide)

/-! ## C8: the Name/Status scenario -/

/-- C8, counterexample: in the table with rows Name/Status and
Alice/Done, the data row is not placeholder-only: the word Alice is
classified meaningful, so the analysis records one meaningful word, not
zero. -/
theorem c8_scenario_counterexample :
    (analyze_table_content [["Name", "Status"], ["Alice", "Done"]] 1).meaningful_words
      = 1 ∧
    (analyze_table_content [["Name", "Status"], ["Alice", "Done"]] 1).meaningful_words
      ≠ 0 := by
  exact ⟨by decide, by decide⟩

/-- C8, amended: the Name/Status over Alice/Done table is classified
GIBBERISH by the engine without page context, but its data row
contributes one meaningful word (Alice) and one placeholder word (Done)
rather than being placeholder-only with zero meaningful words; the
GIBBERISH verdict comes from the only-first-column-filled structural
rule. -/
theorem c8_scenario_amended :
    decide_table_quality
        (analyze_table_content [["Name", "Status"], ["Alice", "Done"]] 1) =
      Verdict.GIBBERISH ∧
    (analyze_table_content [["Name", "Status"], ["Alice", "Done"]] 1).meaningful_words
      = 1 ∧
    (analyze_table_content [["Name", "Status"], ["Alice", "Done"]] 1).placeholder_words
      = 1 ∧
    check_first_column_only_filled
        (analyze_table_content [["Name", "Status"], ["Alice", "Done"]] 1) = true := by
  refine ⟨by decide, by decide, by decide, by decide⟩

/-! ## C7: promotion of the first row to column headers -/

/-- Row lengths never exceed the grid width. -/
theorem length_le_maxRowLen {t : List (List String)} {r : List String}
    (h : r ∈ t) : r.length ≤ maxRowLen t := by
  induction t with
  | nil => cases h
  | cons x xs ih =>
    unfold maxRowLen
    simp only [List.map_cons, List.foldr_cons]
    rcases List.mem_cons.mp h with h | h
    · rw [h]; exact Nat.le_max_left _ _
    · exact Nat.le_trans (ih h) (Nat.le_max_right _ _)

/-- A grid with a non-empty row has positive width. -/
theorem maxRowLen_pos {t : List (List String)}
    (h : t.any (fun r => !r.isEmpty) = true) : 0 < maxRowLen t := by
  rw [List.any_eq_true] at h
  rcases h with ⟨r, hr, hne⟩
  have h1 := length_le_maxRowLen hr
  have h2 : r ≠ [] := by
    intro hh; rw [hh] at hne; simp at hne
  have h3 : 0 < r.length := List.length_pos.mpr h2
  omega

/-- The first normalized row is the raw first row padded with empty
cells. -/
theorem firstRowCells_eq_pad {t : List (List String)} (h : t ≠ []) :
    firstRowCells t =
      t.headD [] ++ List.replicate (maxRowLen t - (t.headD []).length) "" := by
  unfold firstRowCells normalizeTable
  cases t with
  | nil => exact absurd rfl h
  | cons r rs => rfl

/-- `headerCellOk` holds for the empty cell. -/
theorem headerCellOk_empty : headerCellOk "" = true := rfl

/-- The condition of the claim C7 on the raw first row: every non-empty
cell has at most four words and does not start with `e.g.`, and at least
two cells are non-empty. -/
def specC7PromotionCond (t : List (List String)) : Bool :=
  ((t.headD []).all (fun c =>
      (pyStripL c.toList).isEmpty ||
      ((runsAux isWordChar (pyStripL c.toList) []).length ≤ 4 &&
        !("e.g.".toList.isPrefixOf ((pyStripL c.toList).map Char.toLower))))) &&
  ((t.headD []).filter (fun c => !(pyStripL c.toList).isEmpty)).length ≥ 2

/-- `headerCellOk` agrees with the claim's per-cell condition. -/
theorem headerCellOk_eq (c : String) :
    headerCellOk c =
      ((pyStripL c.toList).isEmpty ||
        ((runsAux isWordChar (pyStripL c.toList) []).length ≤ 4 &&
          !("e.g.".toList.isPrefixOf ((pyStripL c.toList).map Char.toLower)))) := by
  simp only [headerCellOk]
  cases h : (pyStripL c.toList).isEmpty with
  | true => simp [h]
  | false => simp [h]

/-- Padding with empty cells changes neither the all-cells-acceptable
check nor the non-empty-cell count of a row. -/
theorem pad_headerCells_invariant (r : List String) (n : Nat) :
    ((r ++ List.replicate n "").all headerCellOk = r.all headerCellOk) ∧
    ((r ++ List.replicate n "").filter
        (fun c => !(pyStripL c.toList).isEmpty)).length =
      (r.filter (fun c => !(pyStripL c.toList).isEmpty)).length := by
  constructor
  · rw [List.all_append]
    have : (List.replicate n "").all headerCellOk = true := by
      rw [List.all_eq_true]
      intro x hx
      rw [List.eq_of_mem_replicate hx]
      exact headerCellOk_empty
    rw [this, Bool.and_true]
  · rw [List.filter_append]
    have : (List.replicate n "").filter
        (fun c => !(pyStripL c.toList).isEmpty) = [] := by
      rw [List.filter_eq_nil_iff]
      intro x hx
      rw [List.eq_of_mem_replicate hx]
      simp [pyStripL, trimBy, dropTrailing]
    rw [this, List.append_nil]

/-- C7: when the first row is not made of bold column headers, row 0 is
promoted to column headers exactly when every non-empty cell of row 0 has
at most four words, none starts with `e.g.`, and at least two cells are
non-empty; the promoted headers are the stripped cells of the first
(normalized) row. -/
theorem c7_header_promotion (t : List (List String))
    (hne : t.any (fun r => !r.isEmpty) = true)
    (hnb : allFirstRowBold t = false) :
    (detect_table_heading t).column_headers =
      (if specC7PromotionCond t then some ((firstRowCells t).map pyStrip)
       else none) := by
  have htne : t ≠ [] := by
    intro h; rw [h] at hne; simp at hne
  have hguard1 : (t.isEmpty || t.all List.isEmpty) = false := by
    rw [Bool.or_eq_false_iff]
    constructor
    · rw [List.isEmpty_eq_false]; exact htne
    · rw [List.any_eq_true] at hne
      rcases hne with ⟨r, hr, hrne⟩
      rw [Bool.eq_false_iff]
      intro hall
      rw [List.all_eq_true] at hall
      have := hall r hr
      rw [List.isEmpty_iff] at this
      rw [this] at hrne
      simp at hrne

  have hcols : 0 < maxRowLen t := maxRowLen_pos hne
  have hrows : 0 < t.length := List.length_pos.mpr htne
  have hallrw : (firstRowCells t).all headerCellOk =
      (t.headD []).all (fun c =>
        (pyStripL c.toList).isEmpty ||
        ((runsAux isWordChar (pyStripL c.toList) []).length ≤ 4 &&
          !("e.g.".toList.isPrefixOf ((pyStripL c.toList).map Char.toLower)))) := by
    rw [firstRowCells_eq_pad htne,
      (pad_headerCells_invariant (t.headD [])
        (maxRowLen t - (t.headD []).length)).1]
    induction (t.headD []) with
    | nil => rfl
    | cons x xs ih =>
      simp only [List.all_cons]
      rw [headerCellOk_eq x, ih]
  have hcountrw : firstRowNonEmptyCount t =
      ((t.headD []).filter (fun c => !(pyStripL c.toList).isEmpty)).length := by
    unfold firstRowNonEmptyCount
    rw [firstRowCells_eq_pad htne,
      (pad_headerCells_invariant (t.headD [])
        (maxRowLen t - (t.headD []).length)).2]
  have hcond : ((firstRowCells t).all headerCellOk &&
        decide (firstRowNonEmptyCount t ≥ 2)) = specC7PromotionCond t := by
    unfold specC7PromotionCond
    rw [hallrw, hcountrw]
  unfold detect_table_heading
  rw [hguard1]
  simp only [Bool.false_eq_true, if_false]
  rw [decide_eq_false (by omega : ¬ (t.length = 0)),
    decide_eq_false (by omega : ¬ (maxRowLen t = 0)), Bool.false_or]
  simp only [Bool.false_eq_true, if_false]
  rw [hnb]
  simp only [Bool.false_eq_true, if_false]
  rw [← hcond]

/-- Witness for C7 at a concrete grid: Name/Status row with a data row is
promoted to column headers. -/
theorem c7_header_promotion_witness :
    (detect_table_heading [["Name", "Status"], ["x y z w v", "y"]]).column_headers =
      (if specC7PromotionCond [["Name", "Status"], ["x y z w v", "y"]] then
        some ((firstRowCells [["Name", "Status"], ["x y z w v", "y"]]).map pyStrip)
       else none) :=
  c7_header_promotion [["Name", "Status"], ["x y z w v", "y"]]
    (by decide) (by decide)

/-! ## C10: the empty-table flag -/

/-- C10: with the default single leading label column, a table is flagged
empty exactly when every cell outside the first column is whitespace-only;
in particular a table whose only content sits in column 0 is an empty
table with a positive filled-cell count. -/
theorem c10_is_empty_table_iff :
    (∀ t : List (List String),
      ((analyze_table_content t 1).is_empty_table = true ↔
        ∀ r ∈ t, ∀ c ∈ r.drop 1, pyStrip c = "")) ∧
    (analyze_table_content [["hello", ""], ["world", ""]] 1).is_empty_table
      = true ∧
    0 < (analyze_table_content [["hello", ""], ["world", ""]] 1).filled_cells := by
  refine ⟨?_, by decide, by decide⟩
  intro t
  by_cases ht : t.isEmpty
  · rw [List.isEmpty_iff] at ht
    subst ht
    simp [analyze_table_content]
  · unfold analyze_table_content
    rw [if_neg (by simp [ht])]
    simp only [List.all_eq_true, List.mem_flatten, List.mem_map]
    constructor
    · intro h r hr c hc
      have hcm : (cell_metrics c).empty = true := by
        apply h
        refine ⟨(r ++ List.replicate (maxRowLen t - r.length) "").drop 1, ?_, ?_⟩
        · exact ⟨r ++ List.replicate (maxRowLen t - r.length) "",
            List.mem_map_of_mem _ hr, rfl⟩
        · cases r with
          | nil => cases hc
          | cons x xs =>
            simp only [List.cons_append, List.drop_one, List.tail_cons]
            simp only [List.drop_one] at hc
            exact List.mem_append_left _ hc
      have : (pyStripL c.toList).isEmpty = true := hcm
      rw [List.isEmpty_iff] at this
      unfold pyStrip
      rw [this]
    · intro h c hc
      rcases hc with ⟨l, ⟨rn, hrn, hl⟩, hcl⟩
      rcases List.mem_map.mp hrn with ⟨r, hr, hrn2⟩
      subst hrn2
      subst hl
      cases r with
      | nil =>
        simp only [List.nil_append] at hcl
        have hrep : c ∈ List.replicate (maxRowLen t - 0) "" :=
          List.mem_of_mem_drop hcl
        rw [List.eq_of_mem_replicate hrep]
        decide
      | cons x xs =>
        simp only [List.cons_append, List.drop_one, List.tail_cons] at hcl
        rcases List.mem_append.mp hcl with hc1 | hc2
        · have hps := h (x :: xs) hr c (by simpa using hc1)
          show (pyStripL c.toList).isEmpty = true
          unfold pyStrip at hps
          have : pyStripL c.toList = [] := by
            have := congrArg String.toList hps
            simpa using this
          rw [this]; rfl
        · rw [List.eq_of_mem_replicate hc2]
          decide

/-! ## Page-level decision (`collect.py` and `page_decider.py`) -/

/-- The fields of the collected document-data dictionary that the page
decider reads.  Counts are Python integers, modelled as `Int` where the
code subtracts them. -/
structure DocData where
  useful_table_count : Nat
  gibberish_table_count : Nat
  num_tables : Nat
  word_count_excluding_tables : Int
  link_count : Int
  image_count : Int
  file_ref_count : Int
  mention_count : Int
  table_links_count : Int
  table_images_count : Int
  table_files_count : Int
  table_mentions_count : Int
deriving DecidableEq

/-- `is_page_gibberish` of `page_decider.py` (gibberish component): the
page is gibberish exactly when no useful indicator fires.  The indicator
strings are modelled by their conditions. -/
def is_page_gibberish (d : DocData) : Bool :=
  let has_useful_tables := decide (d.useful_table_count > 0)
  let links_outside_tables := max 0 (d.link_count - d.table_links_count)
  let images_outside_tables := max 0 (d.image_count - d.table_images_count)
  let files_outside_tables := max 0 (d.file_ref_count - d.table_files_count)
  let mentions_outside_tables := max 0 (d.mention_count - d.table_mentions_count)
  let useful_indicators : List Bool :=
    ([has_useful_tables,
      decide (d.word_count_excluding_tables ≥ 30),
      decide (links_outside_tables > 0),
      decide (images_outside_tables > 0),
      decide (files_outside_tables > 0),
      decide (mentions_outside_tables > 0)]).filter (fun b => b)
  useful_indicators.length = 0

/-- The table-classification loop and field assembly of
`collect_document_data` (`collect.py`): each table is classified by
`is_table_gibberish` with the full table list and its index as context;
document-wide counts and the outside-table word count are inputs computed
elsewhere from the markdown. -/
def collect_document_data (analyses : List Analysis)
    (link_count image_count file_ref_count mention_count : Int)
    (total_word_count : Int) : DocData :=
  { useful_table_count := (analyses.enum.filter (fun p =>
      !(is_table_gibberish p.2 (some analyses) (some p.1)))).length
    gibberish_table_count := (analyses.enum.filter (fun p =>
      is_table_gibberish p.2 (some analyses) (some p.1))).length
    num_tables := analyses.length
    word_count_excluding_tables := total_word_count
    link_count := link_count
    image_count := image_count
    file_ref_count := file_ref_count
    mention_count := mention_count
    table_links_count := Int.ofNat ((analyses.map (·.links)).sum)
    table_images_count := Int.ofNat ((analyses.map (·.images)).sum)
    table_files_count := Int.ofNat ((analyses.map (·.files)).sum)
    table_mentions_count := Int.ofNat ((analyses.map (·.mentions)).sum) }

/-- The useful-page condition exactly as claim C2 states it: some table
classified USEFUL, or thirty or more words outside tables, or a positive
outside-table link / image / file / mention count (document-wide count
minus in-table count, floored at zero). -/
def specC2UsefulCondition (analyses : List Analysis)
    (link_count image_count file_ref_count mention_count : Int)
    (total_word_count : Int) : Bool :=
  (analyses.enum.any (fun p =>
    decide_table_quality_with_context p.2 (some analyses) (some p.1) =
      Verdict.USEFUL)) ||
  decide (total_word_count ≥ 30) ||
  decide (max 0 (link_count - Int.ofNat ((analyses.map (·.links)).sum)) > 0) ||
  decide (max 0 (image_count - Int.ofNat ((analyses.map (·.images)).sum)) > 0) ||
  decide (max 0 (file_ref_count - Int.ofNat ((analyses.map (·.files)).sum)) > 0) ||
  decide (max 0 (mention_count - Int.ofNat ((analyses.map (·.mentions)).sum)) > 0)

/-- The amended useful-page condition: a table avoids counting as
gibberish when its verdict is USEFUL or CANT_DECIDE, so the first
disjunct asks for a table not classified GIBBERISH. -/
def specC2AmendedCondition (analyses : List Analysis)
    (link_count image_count file_ref_count mention_count : Int)
    (total_word_count : Int) : Bool :=
  (analyses.enum.any (fun p =>
    decide_table_quality_with_context p.2 (some analyses) (some p.1) ≠
      Verdict.GIBBERISH)) ||
  decide (total_word_count ≥ 30) ||
  decide (max 0 (link_count - Int.ofNat ((analyses.map (·.links)).sum)) > 0) ||
  decide (max 0 (image_count - Int.ofNat ((analyses.map (·.images)).sum)) > 0) ||
  decide (max 0 (file_ref_count - Int.ofNat ((analyses.map (·.files)).sum)) > 0) ||
  decide (max 0 (mention_count - Int.ofNat ((analyses.map (·.mentions)).sum)) > 0)

/-- The page decider marks a page useful exactly when one of the six
indicator conditions holds. -/
theorem is_page_gibberish_false_iff (d : DocData) :
    is_page_gibberish d = false ↔
      (d.useful_table_count > 0 ∨ d.word_count_excluding_tables ≥ 30 ∨
       max 0 (d.link_count - d.table_links_count) > 0 ∨
       max 0 (d.image_count - d.table_images_count) > 0 ∨
       max 0 (d.file_ref_count - d.table_files_count) > 0 ∨
       max 0 (d.mention_count - d.table_mentions_count) > 0) := by
  simp only [is_page_gibberish]
  by_cases h1 : d.useful_table_count > 0 <;>
    by_cases h2 : d.word_count_excluding_tables ≥ 30 <;>
    by_cases h3 : max 0 (d.link_count - d.table_links_count) > 0 <;>
    by_cases h4 : max 0 (d.image_count - d.table_images_count) > 0 <;>
    by_cases h5 : max 0 (d.file_ref_count - d.table_files_count) > 0 <;>
    by_cases h6 : max 0 (d.mention_count - d.table_mentions_count) > 0 <;>
    simp [h1, h2, h3, h4, h5, h6, List.filter]

/-- C2, amended: for any list of table analyses and document counts, the
page decision built by the collector marks the page useful (not
gibberish) exactly when some table is classified not-GIBBERISH (USEFUL or
CANT_DECIDE) by the context-aware engine, or the outside-table word count
is at least thirty, or some floored outside-table count is positive; the
page verdict is boolean, so it is never CANT_DECIDE. -/
theorem c2_page_decision_amended (analyses : List Analysis)
    (link_count image_count file_ref_count mention_count : Int)
    (total_word_count : Int) :
    is_page_gibberish (collect_document_data analyses link_count image_count
        file_ref_count mention_count total_word_count) = false ↔
      specC2AmendedCondition analyses link_count image_count file_ref_count
        mention_count total_word_count = true := by
  rw [is_page_gibberish_false_iff]
  have hfirst : (collect_document_data analyses link_count image_count
        file_ref_count mention_count total_word_count).useful_table_count > 0 ↔
      (analyses.enum.any (fun p =>
        decide_table_quality_with_context p.2 (some analyses) (some p.1) ≠
          Verdict.GIBBERISH)) = true := by
    simp only [collect_document_data]
    constructor
    · intro h
      rcases List.exists_mem_of_length_pos h with ⟨p, hp⟩
      rcases List.mem_filter.mp hp with ⟨hpmem, hpred⟩
      rw [List.any_eq_true]
      refine ⟨p, hpmem, ?_⟩
      simp only [is_table_gibberish, Bool.not_eq_true'] at hpred
      simpa [decide_eq_false_iff_not] using hpred
    · intro h
      rcases List.any_eq_true.mp h with ⟨p, hpmem, hpred⟩
      have hmem : p ∈ analyses.enum.filter (fun p =>
          !(is_table_gibberish p.2 (some analyses) (some p.1))) := by
        refine List.mem_filter.mpr ⟨hpmem, ?_⟩
        simp only [is_table_gibberish, Bool.not_eq_true']
        simpa [decide_eq_false_iff_not] using hpred
      exact List.length_pos.mpr (List.ne_nil_of_mem hmem)
  rw [hfirst]
  simp only [specC2AmendedCondition, collect_document_data, Bool.or_eq_true,
    decide_eq_true_eq]
  tauto

/-- C2, counterexample: a page whose only table receives the verdict
CANT_DECIDE (and has no other signal) is marked useful by the page
decider, although no table is classified USEFUL and every other condition
of the claim is zero. -/
theorem c2_page_decision_counterexample :
    is_page_gibberish (collect_document_data
        [analyze_table_content
          [["Name", "Type", "Col"], ["", "apple", ""], ["", "", "banana"]] 1]
        0 0 0 0 0) = false ∧
    specC2UsefulCondition
        [analyze_table_content
          [["Name", "Type", "Col"], ["", "apple", ""], ["", "", "banana"]] 1]
        0 0 0 0 0 = false := by
  exact ⟨by decide, by decide⟩

/-! ## Table conversion (`conversion3.py`, `_table_to_markdown`)

HTML tags cannot be embedded directly, so a table cell is modelled by the
observations the converter makes of it: whether it is a `th`, its raw
`colspan` attribute, whether it contains a structured Confluence tag
(which routes conversion through the renderer before cleaning), the date
string `_extract_and_format_date` would return, and the markdown text
`_node_to_markdown` produces for its contents. -/

/-- Python `str.join` semantics. -/
def joinBy (sep : String) : List String → String
  | [] => ""
  | [s] => s
  | s :: s2 :: ss => s ++ sep ++ joinBy sep (s2 :: ss)

/-- `_clean_whitespace` with `keep_newlines = False`: non-breaking spaces
become spaces, zero-width spaces are dropped, and whitespace runs
collapse to single spaces with the ends stripped (HTML entity unescaping
is omitted; the modelled inputs carry no entities). -/
def clean_whitespace (s : String) : String :=
  let pre := (s.toList.map (fun c => if c = '\xa0' then ' ' else c)).filter
    (fun c => c ≠ '​')
  joinBy " " ((runsAux (fun c => !pyWhitespace c) pre []).map String.mk)

/-- `_escape_pipe`: replace every pipe by a backslash-pipe pair. -/
def escape_pipe (s : String) : String :=
  String.mk (s.toList.foldr
    (fun c acc => if c = '|' then '\\' :: '|' :: acc else c :: acc) [])

/-- Model of a table cell as seen by `_table_to_markdown`. -/
structure HtmlCell where
  isTh : Bool
  colspanAttr : Option String
  hasStructuredTag : Bool
  dateText : Option String
  md : String
deriving DecidableEq

/-- Model of an HTML table: its caption text and its `tr` rows, each the
list of its `th`/`td` cells. -/
structure HtmlTable where
  caption : Option String
  rows : List (List HtmlCell)
deriving DecidableEq

/-- `process_cell_content`: cells with a structured tag are converted and
cleaned; otherwise an extracted date is used verbatim; otherwise the
converted text is cleaned.  Pipes are escaped in every branch. -/
def process_cell_content (c : HtmlCell) : String :=
  if c.hasStructuredTag then escape_pipe (clean_whitespace c.md)
  else
    match c.dateText with
    | some d => escape_pipe d
    | none => escape_pipe (clean_whitespace c.md)

/-- Python `int()` on a decimal string (sign-less form, which covers the
colspan attributes the converter meets); `none` models the `ValueError`
raised on non-numeric input. -/
def pyIntNat (s : String) : Option Nat :=
  let t := pyStripL s.toList
  if !t.isEmpty && t.all Char.isDigit then
    some (t.foldl (fun a c => 10 * a + (c.toNat - 48)) 0)
  else none

/-- `int(cell.get('colspan', 1))`: a missing attribute defaults to 1; a
non-numeric attribute raises, modelled as an error. -/
def parseColspanAttr : Option String → Except Unit Nat
  | none => Except.ok 1
  | some s =>
    match pyIntNat s with
    | some n => Except.ok n
    | none => Except.error ()

/-- One key/value markdown line. -/
def kvLine (k v : String) : String :=
  "| " ++ k ++ " | " ++ v ++ " |"

/-- One markdown table line from a list of cell texts. -/
def rowLine (cells : List String) : String :=
  "| " ++ joinBy " | " cells ++ " |"

/-- The synthetic separator line for `n` columns. -/
def sepLine (n : Nat) : String :=
  rowLine (List.replicate n "---")

/-- Pad a row with empty cells up to `n` entries. -/
def padTo (n : Nat) (r : List String) : List String :=
  r ++ List.replicate (n - r.length) ""

/-- Expand the cells of one `tr`: each cell contributes its processed text
followed by `colspan - 1` empty cells; a bad colspan attribute aborts. -/
def expandCellsE : List HtmlCell → Except Unit (List String)
  | [] => Except.ok []
  | c :: cs => do
    let n ← parseColspanAttr c.colspanAttr
    let rest ← expandCellsE cs
    Except.ok ((process_cell_content c :: List.replicate (n - 1) "") ++ rest)

/-- The row-collection loop of the regular path: state is (headers, data
rows, max column count); rows with no cells are skipped; the first row
containing a `th` becomes the header, all others are data. -/
def buildRegularGo :
    List (List HtmlCell) → List String × List (List String) × Nat →
      Except Unit (List String × List (List String) × Nat)
  | [], st => Except.ok st
  | tr :: rest, (headers, dataRows, maxCols) => do
    let cells ← expandCellsE tr
    if cells.isEmpty then buildRegularGo rest (headers, dataRows, maxCols)
    else
      if tr.any (·.isTh) && headers.isEmpty then
        buildRegularGo rest (cells, dataRows, max maxCols cells.length)
      else
        buildRegularGo rest (headers, dataRows ++ [cells],
          max maxCols cells.length)

/-- The key/value detection: more than one row and every row has exactly
two cells. -/
def isKeyValueShape (t : HtmlTable) : Bool :=
  t.rows.length > 1 && t.rows.all (fun tr => tr.length = 2)

/-- The key/value lines, one per row with exactly two cells. -/
def kvRowsOf (t : HtmlTable) : List String :=
  t.rows.filterMap (fun tr =>
    match tr with
    | [k, v] => some (kvLine (process_cell_content k) (process_cell_content v))
    | _ => none)

/-- The emitted lines of the regular path: header line and separator then
data lines, or separator first when no header row was found; rows are
padded and truncated to the header width (or the max width). -/
def regularLines (headers : List String) (dataRows : List (List String))
    (maxCols : Nat) : List String :=
  if !headers.isEmpty then
    rowLine (padTo maxCols headers) ::
      sepLine (padTo maxCols headers).length ::
      dataRows.map (fun r =>
        rowLine ((padTo (padTo maxCols headers).length r).take
          (padTo maxCols headers).length))
  else
    sepLine maxCols ::
      dataRows.map (fun r => rowLine ((padTo maxCols r).take maxCols))

/-- The regular (non key/value) emission, caption included. -/
def tableRegularE (t : HtmlTable) (caption_text : String) :
    Except Unit String := do
  let st ← buildRegularGo t.rows ([], [], 0)
  if st.1.isEmpty && st.2.1.isEmpty then Except.ok ""
  else
    Except.ok (joinBy "\n"
      ((if caption_text ≠ "" then ["**" ++ caption_text ++ "**\n"] else []) ++
        [joinBy "\n" (regularLines st.1 st.2.1 st.2.2)]) ++ "\n\n")

/-- `_table_to_markdown` of `conversion3.py`.  The key/value path never
parses a colspan and ignores the caption, as in the source; an error
models the `ValueError` that `int()` raises on a bad colspan attribute in
the regular path. -/
def table_to_markdown (t : HtmlTable) : Except Unit String :=
  let caption_text :=
    match t.caption with
    | some c => clean_whitespace c
    | none => ""
  if t.rows.isEmpty then Except.ok ""
  else if isKeyValueShape t then
    match kvRowsOf t with
    | [] => tableRegularE t caption_text
    | l0 :: restLines =>
      Except.ok (joinBy "\n" ([l0, "| --- | --- |"] ++ restLines) ++ "\n\n")
  else tableRegularE t caption_text

/-- The grid underlying the emitted markdown (the separator is synthetic
and not part of the grid): key/value rows verbatim, otherwise the padded
header row followed by the padded-and-truncated data rows. -/
def convGrid (t : HtmlTable) : List (List String) :=
  if t.rows.isEmpty then []
  else if isKeyValueShape t then
    t.rows.filterMap (fun tr =>
      match tr with
      | [k, v] => some [process_cell_content k, process_cell_content v]
      | _ => none)
  else
    match buildRegularGo t.rows ([], [], 0) with
    | Except.error _ => []
    | Except.ok (headers, dataRows, maxCols) =>
      if headers.isEmpty && dataRows.isEmpty then []
      else if !headers.isEmpty then
        padTo maxCols headers ::
          dataRows.map (fun r =>
            (padTo (padTo maxCols headers).length r).take
              (padTo maxCols headers).length)
      else dataRows.map (fun r => (padTo maxCols r).take maxCols)

/-- The markdown the converter emits (empty string on the modelled
exception). -/
def convMd (t : HtmlTable) : String :=
  match table_to_markdown t with
  | Except.ok s => s
  | Except.error _ => ""

/-! ## Markdown table extraction (`extract_tables_from_markdown`) -/

/-- Plain split on a character (Python `str.split(sep)` semantics: always
at least one, possibly empty, segment). -/
def splitOnChar (sep : Char) : List Char → List (List Char)
  | [] => [[]]
  | c :: cs =>
    let rest := splitOnChar sep cs
    if c = sep then [] :: rest
    else
      match rest with
      | r :: rs => (c :: r) :: rs
      | [] => [[c]]

/-- Python `str.splitlines` restricted to newline-separated input (the
emitted markdown uses only the newline terminator). -/
def pySplitLines (s : String) : List String :=
  if s.toList.isEmpty then []
  else
    let segs := (splitOnChar '\n' s.toList).map String.mk
    if s.toList.getLast? = some '\n' then segs.dropLast else segs

/-- Python `str.rstrip()`. -/
def pyRstrip (s : String) : String :=
  String.mk (dropTrailing pyWhitespace s.toList)

/-- The character class `[-:\s]` of the separator-row pattern. -/
def sepCharB (c : Char) : Bool :=
  c = '-' || c = ':' || pyWhitespace c

/-- `is_separator_row`: after stripping outer whitespace and pipes, every
non-empty pipe-separated part consists solely of dashes, colons and
whitespace. -/
def is_separator_row (s : String) : Bool :=
  let parts := (splitOnChar '|' (stripCharSet ['|'] (pyStripL s.toList))).map
    pyStripL
  parts.all (fun p => p.isEmpty || p.all sepCharB)

/-- `is_table_line`: a non-blank line containing a pipe that splits into
more than one cell. -/
def is_table_line (s : String) : Bool :=
  if (pyStripL s.toList).isEmpty || !(s.toList.contains '|') then false
  else if !((pyStripL s.toList).head? = some '|' ||
      (pyStripL s.toList).contains '|') then false
  else
    (splitOnChar '|' (stripCharSet ['|'] (pyStripL s.toList))).length > 1

/-- The character loop of `parse_cells`: cells split on unescaped pipes,
escaped pipes become literal pipes, cells are stripped.  Returns the
finished cells and the trailing partial cell. -/
def parseCellsGo : List Char → List Char → Bool → List String × List Char
  | [], cur, _ => ([], cur)
  | ch :: rest, cur, escaped =>
    if ch = '\\' && !escaped then parseCellsGo rest cur true
    else if ch = '|' && !escaped then
      let r := parseCellsGo rest [] false
      (String.mk (pyStripL cur) :: r.1, r.2)
    else
      parseCellsGo rest (cur ++ [if escaped && ch = '|' then '|' else ch]) false

/-- `parse_cells` of `extract_tables_from_markdown`. -/
def parse_cells (line : String) : List String :=
  let s := stripCharSet ['|'] (pyStripL line.toList)
  let r := parseCellsGo s [] false
  r.1 ++ (if !r.2.isEmpty || s.getLast? = some '|' then
    [String.mk (pyStripL r.2)] else [])

/-- `flush_block`: a candidate block of at least two lines containing a
pure separator row yields one table: the non-blank non-separator lines,
parsed into cells. -/
def flushResult (block : List String) : List (List (List String)) :=
  if block.length ≥ 2 && block.any is_separator_row then
    if !(((block.filter (fun l =>
          !(pyStripL l.toList).isEmpty && !is_separator_row l)).filter
        (fun l => l.toList.contains '|')).map parse_cells).isEmpty then
      [((block.filter (fun l =>
          !(pyStripL l.toList).isEmpty && !is_separator_row l)).filter
        (fun l => l.toList.contains '|')).map parse_cells]
    else []
  else []

/-- The line loop of `extract_tables_from_markdown`. -/
def extractGo : List String → List (List (List String)) → List String →
    List (List (List String))
  | [], tables, block => tables ++ flushResult block
  | l :: rest, tables, block =>
    if is_table_line l then extractGo rest tables (block ++ [l])
    else extractGo rest (tables ++ flushResult block) []

/-- `extract_tables_from_markdown` of `check_markdown.py`. -/
def extract_tables_from_markdown (md : String) : List (List (List String)) :=
  if md.toList.isEmpty then []
  else extractGo ((pySplitLines md).map pyRstrip) [] []

/-! ## C6: the key/value emission -/

/-- The key/value markdown exactly as claim C6 describes it: one
`| key | value |` line per row, with the synthetic separator inserted
immediately after the first row's line, the first row kept as data. -/
def specKvMarkdown (t : HtmlTable) : String :=
  match t.rows.map (fun tr =>
    match tr with
    | [k, v] => kvLine (process_cell_content k) (process_cell_content v)
    | _ => "") with
  | [] => ""
  | l0 :: rest => joinBy "\n" (l0 :: "| --- | --- |" :: rest) ++ "\n\n"

/-- On rows of exactly two cells the filter of the key/value path is a
plain map. -/
theorem filterMap_pairs (f : HtmlCell → HtmlCell → String)
    (rs : List (List HtmlCell)) (h : ∀ tr ∈ rs, tr.length = 2) :
    rs.filterMap (fun tr =>
      match tr with
      | [k, v] => some (f k v)
      | _ => none) =
    rs.map (fun tr =>
      match tr with
      | [k, v] => f k v
      | _ => "") := by
  induction rs with
  | nil => rfl
  | cons tr rest ih =>
    have htr : tr.length = 2 := h tr (List.mem_cons_self tr rest)
    match tr, htr with
    | [k, v], _ =>
      simp only [List.filterMap_cons, List.map_cons]
      rw [ih (fun x hx => h x (List.mem_cons_of_mem _ hx))]

/-- C6, amended: every HTML table with at least two rows in which every
row has exactly two cells is emitted as key/value markdown: one
`| key | value |` line per row with the synthetic separator inserted
after the first row's line, the first row kept as data; a single-row
two-cell table instead goes through the regular path. -/
theorem c6_key_value_emission_amended (t : HtmlTable)
    (h2 : 2 ≤ t.rows.length) (hall : ∀ tr ∈ t.rows, tr.length = 2) :
    table_to_markdown t = Except.ok (specKvMarkdown t) := by
  have hne : t.rows ≠ [] := by
    intro h; rw [h] at h2; simp at h2
  have hie : t.rows.isEmpty = false := List.isEmpty_eq_false.mpr hne
  have hkv : isKeyValueShape t = true := by
    unfold isKeyValueShape
    rw [Bool.and_eq_true]
    refine ⟨decide_eq_true (by omega), ?_⟩
    rw [List.all_eq_true]
    intro tr htr
    exact decide_eq_true (hall tr htr)
  have hkvrows : kvRowsOf t = t.rows.map (fun tr =>
      match tr with
      | [k, v] => kvLine (process_cell_content k) (process_cell_content v)
      | _ => "") :=
    filterMap_pairs _ t.rows hall
  unfold table_to_markdown
  rw [hie]
  simp only [Bool.false_eq_true, if_false]
  rw [hkv]
  simp only [if_true]
  rw [hkvrows]
  unfold specKvMarkdown
  rcases List.exists_cons_of_ne_nil hne with ⟨r, rs, hrs⟩
  rw [hrs]
  simp only [List.map_cons]
  rfl

/-- Witness for C6 at a concrete two-row table (with a caption, which the
key/value path drops). -/
theorem c6_key_value_emission_amended_witness :
    table_to_markdown
        ⟨some "Meta",
         [[⟨false, none, false, none, "Date"⟩,
           ⟨false, none, false, some "2023-01-15", "Jan 15, 2023"⟩],
          [⟨false, none, false, none, "Team"⟩,
           ⟨false, none, false, none, "Core"⟩]]⟩ =
      Except.ok (specKvMarkdown
        ⟨some "Meta",
         [[⟨false, none, false, none, "Date"⟩,
           ⟨false, none, false, some "2023-01-15", "Jan 15, 2023"⟩],
          [⟨false, none, false, none, "Team"⟩,
           ⟨false, none, false, none, "Core"⟩]]⟩) :=
  c6_key_value_emission_amended _ (by decide) (by decide)

/-- C6, counterexample: a single-row table whose one row has exactly two
`td` cells is not treated as key/value: the regular path emits the
separator before the row, not after it. -/
theorem c6_key_value_emission_counterexample :
    table_to_markdown
        ⟨none, [[⟨false, none, false, none, "a"⟩,
                 ⟨false, none, false, none, "b"⟩]]⟩ =
      Except.ok "| --- | --- |\n| a | b |\n\n" ∧
    specKvMarkdown
        ⟨none, [[⟨false, none, false, none, "a"⟩,
                 ⟨false, none, false, none, "b"⟩]]⟩ =
      "| a | b |\n| --- | --- |\n\n" ∧
    table_to_markdown
        ⟨none, [[⟨false, none, false, none, "a"⟩,
                 ⟨false, none, false, none, "b"⟩]]⟩ ≠
      Except.ok (specKvMarkdown
        ⟨none, [[⟨false, none, false, none, "a"⟩,
                 ⟨false, none, false, none, "b"⟩]]⟩) := by
  refine ⟨rfl, rfl, ?_⟩
  intro h
  have := congrArg (fun e => match e with
    | Except.ok s => s
    | Except.error _ => "") h
  simp only at this
  exact absurd (congrArg String.toList this) (by decide)

/-! ## C9: the converter on a non-numeric colspan -/

/-- C9: the table converter is not total: on a cell whose `colspan`
attribute is not numeric, `int()` raises (modelled as an error), so
conversion of `<table><tr><td colspan="x">a</td></tr></table>` fails
instead of degrading gracefully; the same table with a numeric colspan
converts fine, isolating the failure to the colspan parse. -/
theorem c9_converter_colspan_crash :
    table_to_markdown
        ⟨none, [[⟨false, some "x", false, none, "a"⟩]]⟩ =
      Except.error () ∧
    table_to_markdown
        ⟨none, [[⟨false, some "2", false, none, "a"⟩]]⟩ =
      Except.ok "| --- | --- |\n| a |  |\n\n" :=
  ⟨rfl, rfl⟩

/-! ## C4 groundwork: stripping lemmas -/

theorem length_dropWhile_le (p : Char → Bool) (l : List Char) :
    (l.dropWhile p).length ≤ l.length := by
  induction l with
  | nil => exact Nat.le_refl _
  | cons x xs ih =>
    rw [List.dropWhile_cons]
    split
    · exact Nat.le_trans ih (Nat.le_succ _)
    · exact Nat.le_refl _

theorem length_dropTrailing_le (p : Char → Bool) (l : List Char) :
    (dropTrailing p l).length ≤ l.length := by
  unfold dropTrailing
  calc ((l.reverse.dropWhile p).reverse).length
      = (l.reverse.dropWhile p).length := List.length_reverse _
    _ ≤ l.reverse.length := length_dropWhile_le _ _
    _ = l.length := List.length_reverse _

theorem dropWhile_cons_of_neg (p : Char → Bool) (x : Char) (xs : List Char)
    (h : p x = false) : (x :: xs).dropWhile p = x :: xs := by
  rw [List.dropWhile_cons, h]
  simp

theorem dropWhile_eq_self (p : Char → Bool) (l : List Char)
    (h : ∀ x, l.head? = some x → p x = false) : l.dropWhile p = l := by
  cases l with
  | nil => rfl
  | cons x xs => exact dropWhile_cons_of_neg p x xs (h x rfl)

theorem dropTrailing_eq_self (p : Char → Bool) (l : List Char)
    (h : ∀ x, l.getLast? = some x → p x = false) : dropTrailing p l = l := by
  unfold dropTrailing
  rw [dropWhile_eq_self p l.reverse (fun x hx =>
    h x (by rw [← List.head?_reverse]; exact hx))]
  exact List.reverse_reverse l

theorem trimBy_eq_self (p : Char → Bool) (l : List Char)
    (hh : ∀ x, l.head? = some x → p x = false)
    (hl : ∀ x, l.getLast? = some x → p x = false) : trimBy p l = l := by
  unfold trimBy
  rw [dropWhile_eq_self p l hh, dropTrailing_eq_self p l hl]

theorem head_not_ws_of_strip_self (l : List Char) (h : pyStripL l = l) :
    ∀ x, l.head? = some x → pyWhitespace x = false := by
  intro x hx
  cases l with
  | nil => cases hx
  | cons c cs =>
    have hxc : c = x := by simpa using hx
    by_contra hws
    rw [Bool.not_eq_false] at hws
    have hwsc : pyWhitespace c = true := by rw [hxc]; exact hws
    have h1 : pyStripL (c :: cs) = dropTrailing pyWhitespace
        (cs.dropWhile pyWhitespace) := by
      unfold pyStripL trimBy
      rw [List.dropWhile_cons, hwsc]
      simp
    have h2 : (dropTrailing pyWhitespace (cs.dropWhile pyWhitespace)).length ≤
        cs.length :=
      Nat.le_trans (length_dropTrailing_le _ _) (length_dropWhile_le _ _)
    have h3 := congrArg List.length h
    rw [h1] at h3
    simp only [List.length_cons] at h3
    omega

theorem last_not_ws_of_strip_self (l : List Char) (h : pyStripL l = l) :
    ∀ x, l.getLast? = some x → pyWhitespace x = false := by
  have hdw : l.dropWhile pyWhitespace = l :=
    dropWhile_eq_self _ _ (head_not_ws_of_strip_self l h)
  have hdt : dropTrailing pyWhitespace l = l := by
    have := h
    unfold pyStripL trimBy at this
    rw [hdw] at this
    exact this
  intro x hx
  by_contra hws
  rw [Bool.not_eq_false] at hws
  rw [← List.head?_reverse] at hx
  rcases hrev : l.reverse with _ | ⟨y, ys⟩
  · rw [hrev] at hx; cases hx
  · rw [hrev] at hx
    have hxy : y = x := by simpa using hx
    subst hxy
    have h1 : dropTrailing pyWhitespace l =
        (ys.dropWhile pyWhitespace).reverse := by
      unfold dropTrailing
      rw [hrev, List.dropWhile_cons, hws]
      simp
    have h2 : ((ys.dropWhile pyWhitespace).reverse).length ≤ ys.length := by
      rw [List.length_reverse]
      exact length_dropWhile_le _ _
    have h3 := congrArg List.length hdt
    rw [h1] at h3
    have h4 : l.length = ys.length + 1 := by
      have := congrArg List.length hrev
      simp only [List.length_reverse, List.length_cons] at this
      omega
    omega

/-- Stripping a trimmed list wrapped in single spaces recovers the
list. -/
theorem strip_pad (c : List Char) (hc : pyStripL c = c) :
    pyStripL (' ' :: c ++ [' ']) = c := by
  have hh := head_not_ws_of_strip_self c hc
  have hl := last_not_ws_of_strip_self c hc
  cases c with
  | nil => rfl
  | cons d ds =>
    show trimBy pyWhitespace (' ' :: ((d :: ds) ++ [' '])) = d :: ds
    unfold trimBy
    have h1 : List.dropWhile pyWhitespace (' ' :: ((d :: ds) ++ [' '])) =
        List.dropWhile pyWhitespace ((d :: ds) ++ [' ']) := by
      rw [List.dropWhile_cons]
      simp [pyWhitespace]
    rw [h1, dropWhile_eq_self _ _ (fun x hx => by
      have hdx : d = x := by simpa using hx
      exact hdx ▸ hh d rfl)]
    unfold dropTrailing
    have h2 : ((d :: ds) ++ [' ']).reverse = ' ' :: (d :: ds).reverse := by
      simp
    rw [h2]
    have h3 : List.dropWhile pyWhitespace (' ' :: (d :: ds).reverse) =
        List.dropWhile pyWhitespace ((d :: ds).reverse) := by
      rw [List.dropWhile_cons]
      simp [pyWhitespace]
    rw [h3, dropWhile_eq_self _ _ (fun x hx => by
      rw [List.head?_reverse] at hx
      exact hl x hx)]
    exact List.reverse_reverse _

/-! ## C4 groundwork: joining and splitting on a separator character -/

/-- Join character lists with a single separator character (the list
version of `str.join`). -/
def joinChar (sep : Char) : List (List Char) → List Char
  | [] => []
  | [s] => s
  | s :: s2 :: ss => s ++ sep :: joinChar sep (s2 :: ss)

theorem splitOnChar_cons (sep c : Char) (cs : List Char) :
    splitOnChar sep (c :: cs) =
      if c = sep then [] :: splitOnChar sep cs
      else
        match splitOnChar sep cs with
        | r :: rs => (c :: r) :: rs
        | [] => [[c]] := rfl

theorem splitOnChar_ne_nil (sep : Char) (l : List Char) :
    splitOnChar sep l ≠ [] := by
  cases l with
  | nil => simp [splitOnChar]
  | cons c cs =>
    rw [splitOnChar_cons]
    split
    · simp
    · split <;> simp

theorem splitOnChar_sep_free (sep : Char) (l : List Char)
    (h : ∀ c ∈ l, ¬ c = sep) : splitOnChar sep l = [l] := by
  induction l with
  | nil => rfl
  | cons c cs ih =>
    rw [splitOnChar_cons, if_neg (h c (List.mem_cons_self c cs)),
      ih (fun x hx => h x (List.mem_cons_of_mem c hx))]

theorem splitOnChar_append_sep (sep : Char) (a b : List Char)
    (ha : ∀ c ∈ a, ¬ c = sep) :
    splitOnChar sep (a ++ sep :: b) = a :: splitOnChar sep b := by
  induction a with
  | nil =>
    show splitOnChar sep (sep :: b) = [] :: splitOnChar sep b
    rw [splitOnChar_cons, if_pos rfl]
  | cons c cs ih =>
    show splitOnChar sep (c :: (cs ++ sep :: b)) = (c :: cs) :: splitOnChar sep b
    rw [splitOnChar_cons, if_neg (ha c (List.mem_cons_self c cs)),
      ih (fun x hx => ha x (List.mem_cons_of_mem c hx))]

theorem splitOnChar_joinChar (sep : Char) (segs : List (List Char))
    (hne : segs ≠ [])
    (h : ∀ s ∈ segs, ∀ c ∈ s, ¬ c = sep) :
    splitOnChar sep (joinChar sep segs) = segs := by
  induction segs with
  | nil => exact absurd rfl hne
  | cons s ss ih =>
    cases ss with
    | nil =>
      show splitOnChar sep s = [s]
      exact splitOnChar_sep_free sep s (h s (List.mem_cons_self s []))
    | cons s2 ss2 =>
      show splitOnChar sep (s ++ sep :: joinChar sep (s2 :: ss2)) = s :: s2 :: ss2
      rw [splitOnChar_append_sep sep s _ (h s (List.mem_cons_self s _)),
        ih (by simp) (fun x hx => h x (List.mem_cons_of_mem s hx))]

/-! ## C4 groundwork: the cell parser on joined segments -/

theorem parseCellsGo_cons (ch : Char) (rest cur : List Char) (escaped : Bool) :
    parseCellsGo (ch :: rest) cur escaped =
      if (ch = '\\' && !escaped) then parseCellsGo rest cur true
      else if (ch = '|' && !escaped) then
        ((String.mk (pyStripL cur)) :: (parseCellsGo rest [] false).1,
          (parseCellsGo rest [] false).2)
      else parseCellsGo rest
        (cur ++ [if escaped && ch = '|' then '|' else ch]) false := rfl

theorem parseCellsGo_cons_pipe (rest cur : List Char) :
    parseCellsGo ('|' :: rest) cur false =
      ((String.mk (pyStripL cur)) :: (parseCellsGo rest [] false).1,
        (parseCellsGo rest [] false).2) := rfl

theorem parseCellsGo_cons_plain (ch : Char) (rest cur : List Char)
    (h1 : ¬ ch = '\\') (h2 : ¬ ch = '|') :
    parseCellsGo (ch :: rest) cur false =
      parseCellsGo rest (cur ++ [ch]) false := by
  rw [parseCellsGo_cons]
  rw [if_neg (by simp [h1]), if_neg (by simp [h2])]
  simp

theorem parseCellsGo_plain_append (seg : List Char)
    (h : ∀ c ∈ seg, ¬ c = '|' ∧ ¬ c = '\\') (rest cur : List Char) :
    parseCellsGo (seg ++ rest) cur false =
      parseCellsGo rest (cur ++ seg) false := by
  induction seg generalizing cur with
  | nil => simp
  | cons c cs ih =>
    have hc := h c (List.mem_cons_self c cs)
    show parseCellsGo (c :: (cs ++ rest)) cur false = _
    rw [parseCellsGo_cons_plain c _ cur hc.2 hc.1,
      ih (fun x hx => h x (List.mem_cons_of_mem c hx)) (cur ++ [c])]
    simp

theorem parseCellsGo_joinChar (s : List Char) (segs : List (List Char))
    (hs : ∀ c ∈ s, ¬ c = '|' ∧ ¬ c = '\\')
    (hsegs : ∀ t ∈ segs, ∀ c ∈ t, ¬ c = '|' ∧ ¬ c = '\\') :
    parseCellsGo (joinChar '|' (s :: segs)) [] false =
      (((s :: segs).dropLast).map (fun x => String.mk (pyStripL x)),
        (s :: segs).getLastD []) := by
  induction segs generalizing s with
  | nil =>
    show parseCellsGo s [] false = ([], s)
    have h0 := parseCellsGo_plain_append s hs [] []
    simpa using h0
  | cons s2 ss ih =>
    show parseCellsGo (s ++ '|' :: joinChar '|' (s2 :: ss)) [] false = _
    rw [parseCellsGo_plain_append s hs _ []]
    simp only [List.nil_append]
    rw [parseCellsGo_cons_pipe,
      ih s2 (hsegs s2 (List.mem_cons_self s2 ss))
        (fun t ht => hsegs t (List.mem_cons_of_mem s2 ht))]
    simp

/-! ## C4 groundwork: characterizing the emitted lines -/

/-- A cell text is safe for round-tripping: it is trimmed and contains no
pipe, backslash, or non-space whitespace character. -/
def safeCellStr (s : String) : Bool :=
  decide (pyStripL s.toList = s.toList) &&
  s.toList.all (fun c => !(c = '|') && !(c = '\\') && (c = ' ' || !(pyWhitespace c)))

/-- The space-padded segment a cell contributes to its line. -/
def padSeg (c : String) : List Char :=
  ' ' :: c.toList ++ [' ']

/-- The character form of an emitted table line. -/
def rowLineChars (cs : List String) : List Char :=
  '|' :: joinChar '|' (cs.map padSeg) ++ ['|']

theorem joinBy_sep3_toList (cs : List String) (hne : cs ≠ []) :
    ' ' :: (joinBy " | " cs).toList ++ [' '] = joinChar '|' (cs.map padSeg) := by
  induction cs with
  | nil => exact absurd rfl hne
  | cons c cs ih =>
    cases cs with
    | nil => rfl
    | cons c2 cs2 =>
      show ' ' :: (c ++ " | " ++ joinBy " | " (c2 :: cs2)).toList ++ [' '] =
        padSeg c ++ '|' :: joinChar '|' ((c2 :: cs2).map padSeg)
      rw [← ih (by simp)]
      show ' ' :: ((c ++ " | ").data ++ (joinBy " | " (c2 :: cs2)).data) ++ [' '] = _
      show ' ' :: ((c.data ++ " | ".data) ++ (joinBy " | " (c2 :: cs2)).data) ++ [' '] = _
      simp [padSeg, String.toList]

theorem rowLine_toList (cs : List String) (hne : cs ≠ []) :
    (rowLine cs).toList = rowLineChars cs := by
  unfold rowLine rowLineChars
  rw [← joinBy_sep3_toList cs hne]
  show ("| " ++ joinBy " | " cs).data ++ " |".data = _
  show ("| ".data ++ (joinBy " | " cs).data) ++ " |".data = _
  simp [String.toList]

theorem kvLine_toList (k v : String) :
    (kvLine k v).toList = rowLineChars [k, v] := by
  show ((("| " ++ k) ++ " | ") ++ v).data ++ " |".data = _
  show ((("| ".data ++ k.data) ++ " | ".data) ++ v.data) ++ " |".data = _
  simp [rowLineChars, joinChar, padSeg, String.toList]

/-- Facts about a safe cell list. -/
theorem safeCellStr_props (c : String) (h : safeCellStr c = true) :
    pyStripL c.toList = c.toList ∧
      ∀ x ∈ c.toList, ¬ x = '|' ∧ ¬ x = '\\' ∧ (x = ' ' ∨ pyWhitespace x = false) := by
  unfold safeCellStr at h
  rw [Bool.and_eq_true, decide_eq_true_eq, List.all_eq_true] at h
  refine ⟨h.1, fun x hx => ?_⟩
  have := h.2 x hx
  simp only [Bool.and_eq_true, Bool.or_eq_true, Bool.not_eq_true',
    decide_eq_false_iff_not, decide_eq_true_eq] at this
  exact ⟨this.1.1, this.1.2, this.2⟩

theorem padSeg_no_pipe_backslash (c : String) (h : safeCellStr c = true) :
    ∀ x ∈ padSeg c, ¬ x = '|' ∧ ¬ x = '\\' := by
  intro x hx
  unfold padSeg at hx
  rcases List.mem_cons.mp hx with hx1 | hx2
  · subst hx1; exact ⟨by decide, by decide⟩
  · rcases List.mem_append.mp hx2 with hx3 | hx4
    · exact ⟨((safeCellStr_props c h).2 x hx3).1, ((safeCellStr_props c h).2 x hx3).2.1⟩
    · have : x = ' ' := by simpa using hx4
      subst this; exact ⟨by decide, by decide⟩

theorem pyStripL_padSeg (c : String) (h : safeCellStr c = true) :
    pyStripL (padSeg c) = c.toList := by
  unfold padSeg
  exact strip_pad c.toList (safeCellStr_props c h).1

theorem joinChar_head_space (segs : List (List Char))
    (hh : ∀ t ∈ segs, t.head? = some ' ') (hne : segs ≠ []) :
    (joinChar '|' segs).head? = some ' ' := by
  cases segs with
  | nil => exact absurd rfl hne
  | cons s ss =>
    have hs := hh s (List.mem_cons_self s ss)
    cases ss with
    | nil => exact hs
    | cons s2 ss2 =>
      show (s ++ '|' :: joinChar '|' (s2 :: ss2)).head? = some ' '
      cases s with
      | nil => cases hs
      | cons x xs =>
        have : x = ' ' := by simpa using hs
        subst this; rfl

theorem joinChar_getLast_space (segs : List (List Char))
    (hl : ∀ t ∈ segs, t.getLast? = some ' ') (hne : segs ≠ []) :
    (joinChar '|' segs).getLast? = some ' ' := by
  induction segs with
  | nil => exact absurd rfl hne
  | cons s ss ih =>
    cases ss with
    | nil => exact hl s (List.mem_cons_self s [])
    | cons s2 ss2 =>
      show (s ++ '|' :: joinChar '|' (s2 :: ss2)).getLast? = some ' '
      have hr := ih (fun t ht => hl t (List.mem_cons_of_mem s ht)) (by simp)
      have hne2 : joinChar '|' (s2 :: ss2) ≠ [] := by
        intro hc; rw [hc] at hr; cases hr
      rw [List.getLast?_append_of_ne_nil s
        (by simp : ('|' :: joinChar '|' (s2 :: ss2)) ≠ [])]
      rcases List.exists_cons_of_ne_nil hne2 with ⟨z, zs, hz⟩
      rw [hz]
      rw [hz] at hr
      exact hr

theorem padSeg_head (c : String) : (padSeg c).head? = some ' ' := rfl

theorem padSeg_getLast (c : String) : (padSeg c).getLast? = some ' ' := by
  unfold padSeg
  rw [show (' ' :: c.toList ++ [' ']) = ((' ' :: c.toList) ++ [' ']) from rfl,
    List.getLast?_concat]

theorem rowLineChars_strip (cs : List String) :
    pyStripL (rowLineChars cs) = rowLineChars cs := by
  apply trimBy_eq_self
  · intro x hx
    have h : '|' = x := by simpa [rowLineChars] using hx
    subst h; decide
  · intro x hx
    rw [show rowLineChars cs =
      (('|' :: joinChar '|' (cs.map padSeg)) ++ ['|']) from by
        simp [rowLineChars], List.getLast?_concat] at hx
    have h : '|' = x := by simpa using hx
    subst h; decide

theorem stripPipes_rowLineChars (cs : List String) (hne : cs ≠ []) :
    stripCharSet ['|'] (rowLineChars cs) = joinChar '|' (cs.map padSeg) := by
  have hmne : cs.map padSeg ≠ [] := by
    intro hc; exact hne (List.map_eq_nil_iff.mp hc)
  have hhead : (joinChar '|' (cs.map padSeg)).head? = some ' ' :=
    joinChar_head_space _ (fun t ht => by
      rcases List.mem_map.mp ht with ⟨c, _, hc⟩
      rw [← hc]; exact padSeg_head c) hmne
  have hlast : (joinChar '|' (cs.map padSeg)).getLast? = some ' ' :=
    joinChar_getLast_space _ (fun t ht => by
      rcases List.mem_map.mp ht with ⟨c, _, hc⟩
      rw [← hc]; exact padSeg_getLast c) hmne
  have hjne : joinChar '|' (cs.map padSeg) ≠ [] := by
    intro hc; rw [hc] at hhead; cases hhead
  rcases List.exists_cons_of_ne_nil hjne with ⟨j, js, hj⟩
  have hjk : j = ' ' := by
    rw [hj] at hhead; simpa using hhead
  subst hjk
  unfold rowLineChars stripCharSet trimBy
  rw [hj]
  have h1 : List.dropWhile (fun c => ['|'].contains c)
      ('|' :: (' ' :: js) ++ ['|']) =
      (' ' :: js) ++ ['|'] := by
    show List.dropWhile (fun c => ['|'].contains c)
      ('|' :: ((' ' :: js) ++ ['|'])) = (' ' :: js) ++ ['|']
    rw [List.dropWhile_cons]
    simp
  rw [h1]
  unfold dropTrailing
  have h2 : ((' ' :: js) ++ ['|']).reverse = '|' :: (' ' :: js).reverse := by simp
  rw [h2, List.dropWhile_cons]
  simp only [List.contains_cons, beq_self_eq_true, Bool.true_or, if_true]
  rw [dropWhile_eq_self _ _ (fun x hx => by
    rw [List.head?_reverse] at hx
    rw [hj] at hlast
    rw [hlast] at hx
    have : ' ' = x := by simpa using hx
    subst this; decide)]
  simp

theorem parse_cells_safe (s : String) (cs : List String)
    (hls : s.toList = rowLineChars cs) (hne : cs ≠ [])
    (hsafe : ∀ c ∈ cs, safeCellStr c = true) : parse_cells s = cs := by
  unfold parse_cells
  rw [hls, rowLineChars_strip, stripPipes_rowLineChars cs hne]
  rcases List.exists_cons_of_ne_nil hne with ⟨c0, rest, hcs⟩
  subst hcs
  rw [show (c0 :: rest).map padSeg = padSeg c0 :: rest.map padSeg from rfl]
  dsimp only
  rw [parseCellsGo_joinChar (padSeg c0) (rest.map padSeg)
    (padSeg_no_pipe_backslash c0 (hsafe c0 (List.mem_cons_self c0 rest)))
    (fun t ht => by
      rcases List.mem_map.mp ht with ⟨c, hcmem, hc⟩
      rw [← hc]
      exact padSeg_no_pipe_backslash c (hsafe c (List.mem_cons_of_mem c0 hcmem)))]
  have hmapstrip : ∀ (l : List String), (∀ c ∈ l, safeCellStr c = true) →
      ((l.map padSeg).map (fun x => String.mk (pyStripL x))) = l := by
    intro l hl
    rw [List.map_map]
    have hpt : ∀ c ∈ l, ((fun x => String.mk (pyStripL x)) ∘ padSeg) c = id c := by
      intro c hc
      show String.mk (pyStripL (padSeg c)) = c
      rw [pyStripL_padSeg c (hl c hc)]
      rfl
    rw [List.map_eq_map_iff.mpr hpt, List.map_id]
  have hdl : ((padSeg c0 :: rest.map padSeg).dropLast).map
      (fun x => String.mk (pyStripL x)) = (c0 :: rest).dropLast := by
    rw [show (padSeg c0 :: rest.map padSeg) = (c0 :: rest).map padSeg from rfl,
      ← List.map_dropLast]
    exact hmapstrip _ (fun c hc =>
      hsafe c (List.dropLast_subset _ hc))
  rw [hdl]
  have hglast : (padSeg c0 :: rest.map padSeg).getLastD [] =
      padSeg ((c0 :: rest).getLast (by simp)) := by
    rw [show (padSeg c0 :: rest.map padSeg) = (c0 :: rest).map padSeg from rfl]
    rw [List.getLastD_eq_getLast?, List.getLast?_map,
      List.getLast?_eq_getLast _ (by simp)]
    rfl
  rw [hglast]
  rw [if_pos (by simp [padSeg])]
  rw [pyStripL_padSeg _ (hsafe _ (List.getLast_mem _))]
  show (c0 :: rest).dropLast ++ [(c0 :: rest).getLast (by simp)] = c0 :: rest
  exact List.dropLast_concat_getLast _

theorem joinChar_append (sep : Char) (a b : List (List Char))
    (ha : a ≠ []) (hb : b ≠ []) :
    joinChar sep (a ++ b) = joinChar sep a ++ sep :: joinChar sep b := by
  induction a with
  | nil => exact absurd rfl ha
  | cons s ss ih =>
    cases ss with
    | nil =>
      cases b with
      | nil => exact absurd rfl hb
      | cons t ts => rfl
    | cons s2 ss2 =>
      show s ++ sep :: joinChar sep ((s2 :: ss2) ++ b) =
        (s ++ sep :: joinChar sep (s2 :: ss2)) ++ sep :: joinChar sep b
      rw [ih (by simp)]
      simp

theorem joinBy_nl_toList (L : List String) (hne : L ≠ []) :
    (joinBy "\n" L).toList = joinChar '\n' (L.map String.toList) := by
  induction L with
  | nil => exact absurd rfl hne
  | cons s ss ih =>
    cases ss with
    | nil => rfl
    | cons s2 ss2 =>
      show (s ++ "\n" ++ joinBy "\n" (s2 :: ss2)).data =
        s.data ++ '\n' :: joinChar '\n' ((s2 :: ss2).map String.toList)
      rw [← ih (by simp)]
      show (s.data ++ "\n".data) ++ (joinBy "\n" (s2 :: ss2)).data = _
      simp [String.toList]

theorem mapMkToList (l : List String) :
    (l.map String.toList).map String.mk = l := by
  induction l with
  | nil => rfl
  | cons a as ih =>
    simp only [List.map_cons]
    rw [ih]
    rfl

theorem pySplitLines_emitted (L : List String) (hne : L ≠ [])
    (hnl : ∀ l ∈ L, ∀ c ∈ l.toList, ¬ c = '\n') :
    pySplitLines (joinBy "\n" L ++ "\n\n") = L ++ [""] := by
  have htl : (joinBy "\n" L ++ "\n\n").toList =
      joinChar '\n' (L.map String.toList) ++ ['\n', '\n'] := by
    show (joinBy "\n" L).data ++ "\n\n".data = _
    rw [show (joinBy "\n" L).data = (joinBy "\n" L).toList from rfl,
      joinBy_nl_toList L hne]
  have hchars : joinChar '\n' (L.map String.toList) ++ ['\n', '\n'] =
      joinChar '\n' ((L.map String.toList) ++ [[], []]) := by
    rw [joinChar_append '\n' _ _ (by simpa using hne) (by simp)]
    rfl
  have hsplit : splitOnChar '\n'
      (joinChar '\n' (L.map String.toList) ++ ['\n', '\n']) =
      (L.map String.toList) ++ [[], []] := by
    rw [hchars]
    refine splitOnChar_joinChar '\n' _ (by simp) ?_
    intro s hs
    rcases List.mem_append.mp hs with h | h
    · rcases List.mem_map.mp h with ⟨l, hl, hleq⟩
      rw [← hleq]
      exact hnl l hl
    · have : s = [] := by
        rcases List.mem_cons.mp h with h1 | h1
        · exact h1
        · simpa using h1
      subst this
      intro c hc
      cases hc
  unfold pySplitLines
  rw [htl]
  rw [if_neg (by simp)]
  have hgl : (joinChar '\n' (L.map String.toList) ++ ['\n', '\n']).getLast? =
      some '\n' := by
    rw [show joinChar '\n' (L.map String.toList) ++ ['\n', '\n'] =
      (joinChar '\n' (L.map String.toList) ++ ['\n']) ++ ['\n'] by simp,
      List.getLast?_concat]
  dsimp only
  rw [hsplit, if_pos hgl, List.map_append, mapMkToList]
  rw [show ([[], []] : List (List Char)).map String.mk = ["", ""] from rfl]
  rw [show L ++ ["", ""] = (L ++ [""]) ++ [""] by simp, List.dropLast_concat]

theorem pyRstrip_eq_self (s : String)
    (h : ∀ x, s.toList.getLast? = some x → pyWhitespace x = false) :
    pyRstrip s = s := by
  unfold pyRstrip
  rw [dropTrailing_eq_self _ _ h]
  rfl

theorem list_all_map {α β : Type} (f : α → β) (p : β → Bool) (l : List α) :
    (l.map f).all p = l.all (fun x => p (f x)) := by
  induction l with
  | nil => rfl
  | cons a as ih =>
    simp only [List.map_cons, List.all_cons]
    rw [ih]

theorem list_all_congr {α : Type} (p q : α → Bool) (l : List α)
    (h : ∀ x ∈ l, p x = q x) : l.all p = l.all q := by
  induction l with
  | nil => rfl
  | cons a as ih =>
    simp only [List.all_cons]
    rw [h a (List.mem_cons_self a as),
      ih (fun x hx => h x (List.mem_cons_of_mem a hx))]

theorem pyRstrip_rowLine (s : String) (cs : List String)
    (hls : s.toList = rowLineChars cs) : pyRstrip s = s := by
  apply pyRstrip_eq_self
  intro x hx
  rw [hls] at hx
  rw [show rowLineChars cs =
    (('|' :: joinChar '|' (cs.map padSeg)) ++ ['|']) from by
      simp [rowLineChars], List.getLast?_concat] at hx
  have h : '|' = x := by simpa using hx
  subst h; decide

theorem is_table_line_of_rowLine (s : String) (cs : List String)
    (hls : s.toList = rowLineChars cs) (h2 : 2 ≤ cs.length)
    (hsafe : ∀ c ∈ cs, safeCellStr c = true) : is_table_line s = true := by
  have hne : cs ≠ [] := by
    intro hc; rw [hc] at h2; cases h2
  unfold is_table_line
  rw [hls, rowLineChars_strip, stripPipes_rowLineChars cs hne]
  rw [if_neg (by simp [rowLineChars])]
  rw [if_neg (by simp [show (rowLineChars cs).head? = some '|' from rfl])]
  rw [splitOnChar_joinChar '|' _ (by
      intro hc
      exact hne (List.map_eq_nil_iff.mp hc))
    (fun t ht => by
      rcases List.mem_map.mp ht with ⟨c, hcmem, hceq⟩
      intro x hx
      rw [← hceq] at hx
      exact (padSeg_no_pipe_backslash c (hsafe c hcmem) x hx).1)]
  rw [List.length_map]
  simp only [gt_iff_lt, decide_eq_true_eq]
  omega

theorem is_table_line_no_pipe (s : String)
    (h : ∀ c ∈ s.toList, ¬ c = '|') : is_table_line s = false := by
  unfold is_table_line
  have hcond : ((pyStripL s.toList).isEmpty || !(s.toList.contains '|')) =
      true := by
    simp only [Bool.or_eq_true]
    right
    cases hcb : s.toList.contains '|' with
    | false => rfl
    | true =>
      exfalso
      rcases List.contains_iff_exists_mem_beq.mp hcb with ⟨a, ha, hb⟩
      exact h a ha (Eq.symm (by simpa using hb))
  rw [if_pos hcond]

theorem is_separator_row_rowLine (s : String) (cs : List String)
    (hls : s.toList = rowLineChars cs) (hne : cs ≠ [])
    (hsafe : ∀ c ∈ cs, safeCellStr c = true) :
    is_separator_row s =
      cs.all (fun c => c.toList.isEmpty || c.toList.all sepCharB) := by
  unfold is_separator_row
  rw [hls, rowLineChars_strip, stripPipes_rowLineChars cs hne]
  rw [splitOnChar_joinChar '|' _ (by
      intro hc
      exact hne (List.map_eq_nil_iff.mp hc))
    (fun t ht => by
      rcases List.mem_map.mp ht with ⟨c, hcmem, hceq⟩
      intro x hx
      rw [← hceq] at hx
      exact (padSeg_no_pipe_backslash c (hsafe c hcmem) x hx).1)]
  dsimp only
  simp only [list_all_map]
  apply list_all_congr
  intro c hc
  show ((pyStripL (padSeg c)).isEmpty || (pyStripL (padSeg c)).all sepCharB) = _
  rw [pyStripL_padSeg c (hsafe c hc)]

theorem extractGo_cons (l : String) (rest : List String)
    (tables : List (List (List String))) (block : List String) :
    extractGo (l :: rest) tables block =
      if is_table_line l then extractGo rest tables (block ++ [l])
      else extractGo rest (tables ++ flushResult block) [] := rfl

theorem flushResult_nil : flushResult [] = [] := rfl

theorem is_table_line_blank : is_table_line "" = false := by decide

theorem extractGo_skip (pre rest : List String)
    (hpre : ∀ l ∈ pre, is_table_line l = false) :
    extractGo (pre ++ rest) [] [] = extractGo rest [] [] := by
  induction pre with
  | nil => rfl
  | cons p ps ih =>
    rw [List.cons_append, extractGo_cons,
      if_neg (by simp [hpre p (List.mem_cons_self p ps)])]
    rw [show ([] : List (List (List String))) ++ flushResult [] = [] from rfl]
    exact ih (fun l hl => hpre l (List.mem_cons_of_mem p hl))

theorem extractGo_tables (T : List String)
    (tables : List (List (List String))) (block : List String)
    (hT : ∀ l ∈ T, is_table_line l = true) :
    extractGo (T ++ [""]) tables block = tables ++ flushResult (block ++ T) := by
  induction T generalizing block with
  | nil =>
    show extractGo [""] tables block = tables ++ flushResult (block ++ [])
    rw [extractGo_cons, if_neg (by simp [is_table_line_blank])]
    show (tables ++ flushResult block) ++ flushResult [] =
      tables ++ flushResult (block ++ [])
    rw [flushResult_nil, List.append_nil, List.append_nil]
  | cons t ts ih =>
    rw [List.cons_append, extractGo_cons,
      if_pos (hT t (List.mem_cons_self t ts))]
    rw [ih (block ++ [t]) (fun l hl => hT l (List.mem_cons_of_mem t hl))]
    simp

theorem flushResult_of_block (B : List String) (g : List (List String))
    (h2 : 2 ≤ B.length) (hsep : B.any is_separator_row = true)
    (hfilter : ((B.filter (fun l =>
          !(pyStripL l.toList).isEmpty && !is_separator_row l)).filter
        (fun l => l.toList.contains '|')).map parse_cells = g)
    (hgne : g ≠ []) : flushResult B = [g] := by
  unfold flushResult
  have hc1 : decide (B.length ≥ 2) = true := decide_eq_true h2
  rw [if_pos (by rw [hc1, hsep]; rfl)]
  rw [hfilter]
  rw [if_pos (by
    cases g with
    | nil => exact absurd rfl hgne
    | cons a as => rfl)]

theorem list_map_id {α : Type} (f : α → α) (l : List α)
    (h : ∀ x ∈ l, f x = x) : l.map f = l := by
  induction l with
  | nil => rfl
  | cons a as ih =>
    simp only [List.map_cons]
    rw [h a (List.mem_cons_self a as),
      ih (fun x hx => h x (List.mem_cons_of_mem a hx))]

theorem string_data_ext (a b : String) (h : a.data = b.data) : a = b := by
  cases a
  cases b
  cases h
  rfl

theorem extract_emitted (pre T : List String) (g : List (List String))
    (hpre_nt : ∀ l ∈ pre, is_table_line l = false)
    (hpre_r : ∀ l ∈ pre, pyRstrip l = l)
    (hnl : ∀ l ∈ pre ++ T, ∀ c ∈ l.toList, ¬ c = '\n')
    (hT_r : ∀ l ∈ T, pyRstrip l = l)
    (hT_t : ∀ l ∈ T, is_table_line l = true)
    (hTne : T ≠ [])
    (hflush : flushResult T = [g]) :
    extract_tables_from_markdown (joinBy "\n" (pre ++ T) ++ "\n\n") = [g] := by
  have hLne : pre ++ T ≠ [] := by
    intro hc
    exact hTne (List.append_eq_nil.mp hc).2
  unfold extract_tables_from_markdown
  rw [if_neg (by
    show ¬(((joinBy "\n" (pre ++ T)).data ++ ['\n', '\n']).isEmpty = true)
    simp)]
  rw [pySplitLines_emitted (pre ++ T) hLne hnl]
  rw [list_map_id pyRstrip _ (by
    intro x hx
    rcases List.mem_append.mp hx with h1 | h1
    · rcases List.mem_append.mp h1 with h2 | h2
      · exact hpre_r x h2
      · exact hT_r x h2
    · have : x = "" := by simpa using h1
      subst this
      rfl)]
  rw [List.append_assoc, extractGo_skip pre _ hpre_nt,
    extractGo_tables T [] [] hT_t]
  rw [show ([] : List String) ++ T = T from rfl]
  rw [show ([] : List (List (List String))) ++ flushResult T = flushResult T
    from rfl]
  exact hflush

theorem mem_joinChar (sep x : Char) (segs : List (List Char))
    (hx : x ∈ joinChar sep segs) : x = sep ∨ ∃ t ∈ segs, x ∈ t := by
  induction segs with
  | nil => cases hx
  | cons s ss ih =>
    cases ss with
    | nil => exact Or.inr ⟨s, List.mem_cons_self s [], hx⟩
    | cons s2 ss2 =>
      have hx2 : x ∈ s ++ sep :: joinChar sep (s2 :: ss2) := hx
      rcases List.mem_append.mp hx2 with h1 | h1
      · exact Or.inr ⟨s, by simp, h1⟩
      · rcases List.mem_cons.mp h1 with h2 | h2
        · exact Or.inl h2
        · rcases ih h2 with h3 | ⟨t, ht, hxt⟩
          · exact Or.inl h3
          · exact Or.inr ⟨t, List.mem_cons_of_mem s ht, hxt⟩

theorem rowLineChars_no_nl (cs : List String)
    (hsafe : ∀ c ∈ cs, safeCellStr c = true) :
    ∀ x ∈ rowLineChars cs, ¬ x = '\n' := by
  intro x hx hxn
  subst hxn
  have hx2 : ('\n' : Char) ∈ '|' :: joinChar '|' (cs.map padSeg) ++ ['|'] := hx
  rcases List.mem_cons.mp hx2 with h1 | h1
  · exact absurd h1 (by decide)
  rcases List.mem_append.mp h1 with h2 | h2
  · rcases mem_joinChar '|' '\n' _ h2 with h3 | ⟨t, ht, hxt⟩
    · exact absurd h3 (by decide)
    · rcases List.mem_map.mp ht with ⟨c, hc, hceq⟩
      rw [← hceq] at hxt
      have hxt2 : ('\n' : Char) ∈ ' ' :: c.toList ++ [' '] := hxt
      rcases List.mem_cons.mp hxt2 with h4 | h4
      · exact absurd h4 (by decide)
      rcases List.mem_append.mp h4 with h5 | h5
      · rcases ((safeCellStr_props c (hsafe c hc)).2 '\n' h5).2.2 with h6 | h6
        · exact absurd h6 (by decide)
        · exact absurd h6 (by decide)
      · exact absurd (by simpa using h5 : ('\n' : Char) = ' ') (by decide)
  · exact absurd (by simpa using h2 : ('\n' : Char) = '|') (by decide)

theorem line_nonblank (s : String) (cs : List String)
    (hls : s.toList = rowLineChars cs) :
    (pyStripL s.toList).isEmpty = false := by
  rw [hls, rowLineChars_strip]
  rfl

theorem line_not_sep (s : String) (cs : List String)
    (hls : s.toList = rowLineChars cs) (hne : cs ≠ [])
    (hsafe : ∀ c ∈ cs, safeCellStr c = true)
    (hx : cs.any (fun c => c.toList.any (fun ch => !sepCharB ch)) = true) :
    is_separator_row s = false := by
  rw [is_separator_row_rowLine s cs hls hne hsafe]
  rcases List.any_eq_true.mp hx with ⟨c, hc, hcx⟩
  rcases List.any_eq_true.mp hcx with ⟨ch, hch, hchx⟩
  apply Bool.eq_false_iff.mpr
  intro hall
  have hor := List.all_eq_true.mp hall c hc
  rw [Bool.or_eq_true] at hor
  rcases hor with h1 | h1
  · rw [List.isEmpty_iff.mp h1] at hch
    cases hch
  · rw [List.all_eq_true.mp h1 ch hch] at hchx
    exact absurd hchx (by decide)

theorem line_contains_pipe (s : String) (cs : List String)
    (hls : s.toList = rowLineChars cs) : s.toList.contains '|' = true := by
  rw [hls]
  simp [rowLineChars]

theorem replicate_dashes_safe (n : Nat) :
    ∀ c ∈ List.replicate n "---", safeCellStr c = true := fun c hc => by
  rw [List.eq_of_mem_replicate hc]
  decide

theorem replicate_dashes_ne_nil (n : Nat) (hn : 1 ≤ n) :
    List.replicate n "---" ≠ [] := by
  intro hc
  have := congrArg List.length hc
  simp at this
  omega

theorem sepLine_toList (n : Nat) (hn : 1 ≤ n) :
    (sepLine n).toList = rowLineChars (List.replicate n "---") :=
  rowLine_toList _ (replicate_dashes_ne_nil n hn)

theorem sepLine_is_sep (n : Nat) (hn : 1 ≤ n) :
    is_separator_row (sepLine n) = true := by
  rw [is_separator_row_rowLine _ _ (sepLine_toList n hn)
    (replicate_dashes_ne_nil n hn) (replicate_dashes_safe n)]
  apply List.all_eq_true.mpr
  intro c hc
  rw [List.eq_of_mem_replicate hc]
  decide

theorem sepLine_is_table (n : Nat) (hn : 2 ≤ n) :
    is_table_line (sepLine n) = true := by
  apply is_table_line_of_rowLine _ _ (sepLine_toList n (by omega))
  · rw [List.length_replicate]
    exact hn
  · exact replicate_dashes_safe n

theorem sepLine_rstrip (n : Nat) (hn : 1 ≤ n) :
    pyRstrip (sepLine n) = sepLine n :=
  pyRstrip_rowLine _ _ (sepLine_toList n hn)

theorem sepLine_no_nl (n : Nat) (hn : 1 ≤ n) :
    ∀ x ∈ (sepLine n).toList, ¬ x = '\n' := by
  rw [sepLine_toList n hn]
  exact rowLineChars_no_nl _ (replicate_dashes_safe n)

/-- The per-row side conditions of the round trip. -/
def goodRow (r : List String) : Bool :=
  decide (2 ≤ r.length) && r.all safeCellStr &&
    r.any (fun c => c.toList.any (fun ch => !sepCharB ch))

theorem goodRow_props (r : List String) (h : goodRow r = true) :
    2 ≤ r.length ∧ (∀ c ∈ r, safeCellStr c = true) ∧
      r.any (fun c => c.toList.any (fun ch => !sepCharB ch)) = true := by
  unfold goodRow at h
  rw [Bool.and_eq_true, Bool.and_eq_true, decide_eq_true_eq] at h
  exact ⟨h.1.1, List.all_eq_true.mp h.1.2, h.2⟩

theorem goodRow_ne_nil (r : List String) (h : goodRow r = true) : r ≠ [] := by
  intro hc
  have := (goodRow_props r h).1
  rw [hc] at this
  cases this

theorem rowLine_pred1 (r : List String) (h : goodRow r = true) :
    (!(pyStripL (rowLine r).toList).isEmpty &&
      !is_separator_row (rowLine r)) = true := by
  have hp := goodRow_props r h
  have hne := goodRow_ne_nil r h
  rw [line_nonblank (rowLine r) r (rowLine_toList r hne),
    line_not_sep (rowLine r) r (rowLine_toList r hne) hne hp.2.1 hp.2.2]
  rfl

theorem lines_filter1 (gs : List (List String))
    (hrow : ∀ r ∈ gs, goodRow r = true) :
    (gs.map rowLine).filter (fun l =>
      !(pyStripL l.toList).isEmpty && !is_separator_row l) = gs.map rowLine := by
  apply List.filter_eq_self.mpr
  intro a ha
  rcases List.mem_map.mp ha with ⟨r, hr, hreq⟩
  rw [← hreq]
  exact rowLine_pred1 r (hrow r hr)

theorem lines_filter2 (gs : List (List String))
    (hrow : ∀ r ∈ gs, goodRow r = true) :
    (gs.map rowLine).filter (fun l => l.toList.contains '|') =
      gs.map rowLine := by
  apply List.filter_eq_self.mpr
  intro a ha
  rcases List.mem_map.mp ha with ⟨r, hr, hreq⟩
  rw [← hreq]
  exact line_contains_pipe (rowLine r) r
    (rowLine_toList r (goodRow_ne_nil r (hrow r hr)))

theorem lines_parse (gs : List (List String))
    (hrow : ∀ r ∈ gs, goodRow r = true) :
    (gs.map rowLine).map parse_cells = gs := by
  rw [List.map_map]
  apply list_map_id
  intro r hr
  show parse_cells (rowLine r) = r
  have hp := goodRow_props r (hrow r hr)
  exact parse_cells_safe (rowLine r) r
    (rowLine_toList r (goodRow_ne_nil r (hrow r hr)))
    (goodRow_ne_nil r (hrow r hr)) hp.2.1

theorem flush_header_block (g0 : List String) (gs : List (List String))
    (n : Nat) (hn : 2 ≤ n) (h0 : goodRow g0 = true)
    (hrow : ∀ r ∈ gs, goodRow r = true) :
    flushResult (rowLine g0 :: sepLine n :: gs.map rowLine) = [g0 :: gs] := by
  apply flushResult_of_block
  · simp
  · rw [List.any_cons, List.any_cons, sepLine_is_sep n (by omega)]
    simp
  · rw [@List.filter_cons_of_pos String
      (fun l => !(pyStripL l.toList).isEmpty && !is_separator_row l)
      (rowLine g0) (sepLine n :: gs.map rowLine) (rowLine_pred1 g0 h0)]
    rw [@List.filter_cons_of_neg String
      (fun l => !(pyStripL l.toList).isEmpty && !is_separator_row l)
      (sepLine n) (gs.map rowLine) (by simp [sepLine_is_sep n (by omega)])]
    rw [lines_filter1 gs hrow]
    rw [@List.filter_cons_of_pos String (fun l => l.toList.contains '|')
      (rowLine g0) (gs.map rowLine)
      (line_contains_pipe (rowLine g0) g0
        (rowLine_toList g0 (goodRow_ne_nil g0 h0)))]
    rw [lines_filter2 gs hrow]
    rw [List.map_cons, lines_parse gs hrow,
      parse_cells_safe (rowLine g0) g0
        (rowLine_toList g0 (goodRow_ne_nil g0 h0))
        (goodRow_ne_nil g0 h0) (goodRow_props g0 h0).2.1]
  · exact List.cons_ne_nil _ _

theorem flush_sep_block (gs : List (List String)) (n : Nat)
    (hn : 2 ≤ n) (hgne : gs ≠ [])
    (hrow : ∀ r ∈ gs, goodRow r = true) :
    flushResult (sepLine n :: gs.map rowLine) = [gs] := by
  apply flushResult_of_block
  · have := List.length_pos.mpr hgne
    simp only [List.length_cons, List.length_map]
    omega
  · rw [List.any_cons, sepLine_is_sep n (by omega)]
    rfl
  · rw [@List.filter_cons_of_neg String
      (fun l => !(pyStripL l.toList).isEmpty && !is_separator_row l)
      (sepLine n) (gs.map rowLine) (by simp [sepLine_is_sep n (by omega)])]
    rw [lines_filter1 gs hrow, lines_filter2 gs hrow, lines_parse gs hrow]
  · exact hgne

theorem kv_pairs (rs : List (List HtmlCell))
    (h : ∀ tr ∈ rs, tr.length = 2) :
    ∃ pairs : List (String × String),
      rs.filterMap (fun tr =>
        match tr with
        | [k, v] => some (kvLine (process_cell_content k)
            (process_cell_content v))
        | _ => none) = pairs.map (fun p => kvLine p.1 p.2) ∧
      rs.filterMap (fun tr =>
        match tr with
        | [k, v] => some [process_cell_content k, process_cell_content v]
        | _ => none) = pairs.map (fun p => [p.1, p.2]) := by
  induction rs with
  | nil => exact ⟨[], rfl, rfl⟩
  | cons tr rest ih =>
    rcases ih (fun t ht => h t (List.mem_cons_of_mem tr ht)) with
      ⟨pairs, h1, h2⟩
    have hlen := h tr (List.mem_cons_self tr rest)
    cases tr with
    | nil => exact absurd hlen (by decide)
    | cons a t1 =>
      cases t1 with
      | nil => exact absurd hlen (by simp)
      | cons b t2 =>
        cases t2 with
        | cons c t3 =>
          simp only [List.length_cons] at hlen
          omega
        | nil =>
          refine ⟨(process_cell_content a, process_cell_content b) :: pairs,
            ?_, ?_⟩
          · show kvLine (process_cell_content a) (process_cell_content b) ::
              rest.filterMap _ = _
            rw [h1]
            rfl
          · show [process_cell_content a, process_cell_content b] ::
              rest.filterMap _ = _
            rw [h2]
            rfl

theorem kv_sep_is_sep : is_separator_row "| --- | --- |" = true := by decide

theorem kv_sep_is_table : is_table_line "| --- | --- |" = true := by decide

theorem kv_sep_rstrip : pyRstrip "| --- | --- |" = "| --- | --- |" := by decide

theorem kv_sep_no_nl : ∀ x ∈ ("| --- | --- |" : String).toList, ¬ x = '\n' :=
  by decide

theorem kvLine_pred1 (p : String × String) (h : goodRow [p.1, p.2] = true) :
    (!(pyStripL (kvLine p.1 p.2).toList).isEmpty &&
      !is_separator_row (kvLine p.1 p.2)) = true := by
  have hp := goodRow_props _ h
  rw [line_nonblank (kvLine p.1 p.2) [p.1, p.2] (kvLine_toList p.1 p.2),
    line_not_sep (kvLine p.1 p.2) [p.1, p.2] (kvLine_toList p.1 p.2)
      (by simp) hp.2.1 hp.2.2]
  rfl

theorem kvlines_filter1 (ps : List (String × String))
    (hrow : ∀ p ∈ ps, goodRow [p.1, p.2] = true) :
    (ps.map (fun p => kvLine p.1 p.2)).filter (fun l =>
      !(pyStripL l.toList).isEmpty && !is_separator_row l) =
      ps.map (fun p => kvLine p.1 p.2) := by
  apply List.filter_eq_self.mpr
  intro a ha
  rcases List.mem_map.mp ha with ⟨p, hp, hpeq⟩
  rw [← hpeq]
  exact kvLine_pred1 p (hrow p hp)

theorem kvlines_filter2 (ps : List (String × String)) :
    (ps.map (fun p => kvLine p.1 p.2)).filter (fun l =>
      l.toList.contains '|') = ps.map (fun p => kvLine p.1 p.2) := by
  apply List.filter_eq_self.mpr
  intro a ha
  rcases List.mem_map.mp ha with ⟨p, hp, hpeq⟩
  rw [← hpeq]
  exact line_contains_pipe (kvLine p.1 p.2) [p.1, p.2] (kvLine_toList p.1 p.2)

theorem kvlines_parse (ps : List (String × String))
    (hrow : ∀ p ∈ ps, goodRow [p.1, p.2] = true) :
    (ps.map (fun p => kvLine p.1 p.2)).map parse_cells =
      ps.map (fun p => [p.1, p.2]) := by
  rw [List.map_map]
  apply List.map_eq_map_iff.mpr
  intro p hp
  show parse_cells (kvLine p.1 p.2) = [p.1, p.2]
  exact parse_cells_safe (kvLine p.1 p.2) [p.1, p.2] (kvLine_toList p.1 p.2)
    (by simp) (goodRow_props _ (hrow p hp)).2.1

theorem flush_kv_block (p0 : String × String) (ps : List (String × String))
    (h0 : goodRow [p0.1, p0.2] = true)
    (hrow : ∀ p ∈ ps, goodRow [p.1, p.2] = true) :
    flushResult (kvLine p0.1 p0.2 :: "| --- | --- |" ::
        ps.map (fun p => kvLine p.1 p.2)) =
      [[p0.1, p0.2] :: ps.map (fun p => [p.1, p.2])] := by
  apply flushResult_of_block
  · simp
  · rw [List.any_cons, List.any_cons, kv_sep_is_sep]
    simp
  · rw [@List.filter_cons_of_pos String
      (fun l => !(pyStripL l.toList).isEmpty && !is_separator_row l)
      (kvLine p0.1 p0.2) _ (kvLine_pred1 p0 h0)]
    rw [@List.filter_cons_of_neg String
      (fun l => !(pyStripL l.toList).isEmpty && !is_separator_row l)
      "| --- | --- |" _ (by simp [kv_sep_is_sep])]
    rw [kvlines_filter1 ps hrow]
    rw [@List.filter_cons_of_pos String (fun l => l.toList.contains '|')
      (kvLine p0.1 p0.2) _
      (line_contains_pipe (kvLine p0.1 p0.2) [p0.1, p0.2]
        (kvLine_toList p0.1 p0.2))]
    rw [kvlines_filter2 ps]
    rw [List.map_cons, kvlines_parse ps hrow,
      parse_cells_safe (kvLine p0.1 p0.2) [p0.1, p0.2]
        (kvLine_toList p0.1 p0.2) (by simp) (goodRow_props _ h0).2.1]
  · exact List.cons_ne_nil _ _

/-- The caption text the converter renders (empty when absent). -/
def captionText (t : HtmlTable) : String :=
  match t.caption with
  | some c => clean_whitespace c
  | none => ""

/-- The caption side condition of the round trip: no pipe and no newline
in the rendered caption. -/
def captionSafe (t : HtmlTable) : Bool :=
  (captionText t).toList.all (fun ch => !(ch = '|') && !(ch = '\n'))

theorem rowLine_is_table (r : List String) (h : goodRow r = true) :
    is_table_line (rowLine r) = true :=
  is_table_line_of_rowLine _ r (rowLine_toList r (goodRow_ne_nil r h))
    (goodRow_props r h).1 (goodRow_props r h).2.1

theorem rowLine_rstrip (r : List String) (h : goodRow r = true) :
    pyRstrip (rowLine r) = rowLine r :=
  pyRstrip_rowLine _ r (rowLine_toList r (goodRow_ne_nil r h))

theorem rowLine_no_nl (r : List String) (h : goodRow r = true) :
    ∀ x ∈ (rowLine r).toList, ¬ x = '\n' := by
  rw [rowLine_toList r (goodRow_ne_nil r h)]
  exact rowLineChars_no_nl r (goodRow_props r h).2.1

theorem kvLine_is_table (p : String × String)
    (h : goodRow [p.1, p.2] = true) :
    is_table_line (kvLine p.1 p.2) = true :=
  is_table_line_of_rowLine _ [p.1, p.2] (kvLine_toList p.1 p.2) (by simp)
    (goodRow_props _ h).2.1

theorem kvLine_rstrip (p : String × String) :
    pyRstrip (kvLine p.1 p.2) = kvLine p.1 p.2 :=
  pyRstrip_rowLine _ [p.1, p.2] (kvLine_toList p.1 p.2)

theorem kvLine_no_nl (p : String × String) (h : goodRow [p.1, p.2] = true) :
    ∀ x ∈ (kvLine p.1 p.2).toList, ¬ x = '\n' := by
  rw [kvLine_toList p.1 p.2]
  exact rowLineChars_no_nl [p.1, p.2] (goodRow_props _ h).2.1

theorem capline_data (cap : String) :
    ("**" ++ cap ++ "**").data = (['*', '*'] ++ cap.data) ++ ['*', '*'] := rfl

theorem capline_not_table (cap : String)
    (hcap : cap.toList.all (fun ch => !(ch = '|') && !(ch = '\n')) = true) :
    is_table_line ("**" ++ cap ++ "**") = false := by
  apply is_table_line_no_pipe
  intro c hc hcp
  subst hcp
  have hc2 : ('|' : Char) ∈ (['*', '*'] ++ cap.data) ++ ['*', '*'] := by
    rw [← capline_data cap]
    exact hc
  rcases List.mem_append.mp hc2 with h1 | h1
  · rcases List.mem_append.mp h1 with h2 | h2
    · rcases List.mem_cons.mp h2 with h3 | h3
      · exact absurd h3 (by decide)
      · exact absurd (by simpa using h3 : ('|' : Char) = '*') (by decide)
    · have := List.all_eq_true.mp hcap '|' h2
      simp at this
  · rcases List.mem_cons.mp h1 with h3 | h3
    · exact absurd h3 (by decide)
    · exact absurd (by simpa using h3 : ('|' : Char) = '*') (by decide)

theorem capline_rstrip (cap : String) :
    pyRstrip ("**" ++ cap ++ "**") = "**" ++ cap ++ "**" := by
  apply pyRstrip_eq_self
  intro x hx
  have hx2 : ((['*', '*'] ++ cap.data) ++ ['*', '*']).getLast? = some x := by
    rw [← capline_data cap]
    exact hx
  rw [show (['*', '*'] ++ cap.data) ++ ['*', '*'] =
    ((['*', '*'] ++ cap.data) ++ ['*']) ++ ['*'] by simp,
    List.getLast?_concat] at hx2
  have : '*' = x := by simpa using hx2
  subst this
  decide

theorem capline_no_nl (cap : String)
    (hcap : cap.toList.all (fun ch => !(ch = '|') && !(ch = '\n')) = true) :
    ∀ c ∈ ("**" ++ cap ++ "**").toList, ¬ c = '\n' := by
  intro c hc hcn
  subst hcn
  have hc2 : ('\n' : Char) ∈ (['*', '*'] ++ cap.data) ++ ['*', '*'] := by
    rw [← capline_data cap]
    exact hc
  rcases List.mem_append.mp hc2 with h1 | h1
  · rcases List.mem_append.mp h1 with h2 | h2
    · rcases List.mem_cons.mp h2 with h3 | h3
      · exact absurd h3 (by decide)
      · exact absurd (by simpa using h3 : ('\n' : Char) = '*') (by decide)
    · have := List.all_eq_true.mp hcap '\n' h2
      simp at this
  · rcases List.mem_cons.mp h1 with h3 | h3
    · exact absurd h3 (by decide)
    · exact absurd (by simpa using h3 : ('\n' : Char) = '*') (by decide)

theorem caption_md_eq (cap : String) (T : List String) (hT : T ≠ []) :
    joinBy "\n" ["**" ++ cap ++ "**\n", joinBy "\n" T] ++ "\n\n" =
      joinBy "\n" ((("**" ++ cap ++ "**") :: "" :: []) ++ T) ++ "\n\n" := by
  apply string_data_ext
  cases T with
  | nil => exact absurd rfl hT
  | cons t ts =>
    show ((("**" ++ cap ++ "**\n") ++ "\n" ++ joinBy "\n" (t :: ts)).data ++
        "\n\n".data) =
      ((("**" ++ cap ++ "**") ++ "\n" ++ ("" ++ "\n" ++
        joinBy "\n" (t :: ts))).data ++ "\n\n".data)
    show ((((("**" ++ cap ++ "**\n").data ++ "\n".data) ++
        (joinBy "\n" (t :: ts)).data)) ++ "\n\n".data) =
      (((("**" ++ cap ++ "**").data ++ "\n".data) ++
        (("".data ++ "\n".data) ++ (joinBy "\n" (t :: ts)).data)) ++
        "\n\n".data)
    rw [show ("**" ++ cap ++ "**\n").data =
      (['*', '*'] ++ cap.data) ++ ['*', '*', '\n'] from rfl,
      show ("**" ++ cap ++ "**").data =
        (['*', '*'] ++ cap.data) ++ ['*', '*'] from rfl]
    simp

theorem length_padTake (n : Nat) (r : List String) :
    ((padTo n r).take n).length = n := by
  simp only [padTo, List.length_take, List.length_append,
    List.length_replicate]
  omega

theorem extract_emitted_nopre (T : List String) (g : List (List String))
    (hnl : ∀ l ∈ T, ∀ c ∈ l.toList, ¬ c = '\n')
    (hT_r : ∀ l ∈ T, pyRstrip l = l)
    (hT_t : ∀ l ∈ T, is_table_line l = true)
    (hTne : T ≠ [])
    (hflush : flushResult T = [g]) :
    extract_tables_from_markdown (joinBy "\n" T ++ "\n\n") = [g] := by
  have h := extract_emitted [] T g
    (fun l hl => absurd hl (List.not_mem_nil l))
    (fun l hl => absurd hl (List.not_mem_nil l))
    (fun l hl => hnl l (by simpa using hl))
    hT_r hT_t hTne hflush
  simpa using h

theorem extract_emitted_withcap (cap : String) (T : List String)
    (g : List (List String))
    (hcap : cap.toList.all (fun ch => !(ch = '|') && !(ch = '\n')) = true)
    (hnl : ∀ l ∈ T, ∀ c ∈ l.toList, ¬ c = '\n')
    (hT_r : ∀ l ∈ T, pyRstrip l = l)
    (hT_t : ∀ l ∈ T, is_table_line l = true)
    (hTne : T ≠ [])
    (hflush : flushResult T = [g]) :
    extract_tables_from_markdown
      (joinBy "\n" (("**" ++ cap ++ "**") :: "" :: T) ++ "\n\n") = [g] := by
  have h := extract_emitted ["**" ++ cap ++ "**", ""] T g
    (by
      intro l hl
      rcases List.mem_cons.mp hl with h1 | h1
      · subst h1
        exact capline_not_table cap hcap
      · have : l = "" := by simpa using h1
        subst this
        exact is_table_line_blank)
    (by
      intro l hl
      rcases List.mem_cons.mp hl with h1 | h1
      · subst h1
        exact capline_rstrip cap
      · have : l = "" := by simpa using h1
        subst this
        rfl)
    (by
      intro l hl
      rcases List.mem_append.mp hl with h1 | h1
      · rcases List.mem_cons.mp h1 with h2 | h2
        · subst h2
          exact capline_no_nl cap hcap
        · have : l = "" := by simpa using h2
          subst this
          intro c hc
          cases hc
      · exact hnl l h1)
    hT_r hT_t hTne hflush
  simpa using h

theorem kv_path (t : HtmlTable) (hkv : isKeyValueShape t = true)
    (hgne : convGrid t ≠ [])
    (hsafe : (convGrid t).all goodRow = true) :
    extract_tables_from_markdown (convMd t) = [convGrid t] := by
  have hkv2 := hkv
  unfold isKeyValueShape at hkv2
  rw [Bool.and_eq_true] at hkv2
  have hlen1 : 1 < t.rows.length := by
    have := hkv2.1
    simpa using this
  have hall2 : ∀ tr ∈ t.rows, tr.length = 2 := by
    intro tr htr
    have := List.all_eq_true.mp hkv2.2 tr htr
    simpa using this
  have hrowsE : t.rows.isEmpty = false := by
    cases h : t.rows with
    | nil => rw [h] at hlen1; exact absurd hlen1 (by decide)
    | cons a as => rfl
  rcases kv_pairs t.rows hall2 with ⟨pairs, hp1, hp2⟩
  have hgrid : convGrid t = pairs.map (fun p => [p.1, p.2]) := by
    unfold convGrid
    rw [if_neg (by simp [hrowsE]), if_pos hkv]
    exact hp2
  have hpne : pairs ≠ [] := by
    intro hc
    rw [hc] at hgrid
    exact hgne (by simpa using hgrid)
  rcases List.exists_cons_of_ne_nil hpne with ⟨p0, ps, hpairs⟩
  subst hpairs
  have hkvrows : kvRowsOf t =
      kvLine p0.1 p0.2 :: ps.map (fun p => kvLine p.1 p.2) := by
    unfold kvRowsOf
    rw [hp1]
    rfl
  have hmd : table_to_markdown t = Except.ok (joinBy "\n"
      (kvLine p0.1 p0.2 :: "| --- | --- |" ::
        ps.map (fun p => kvLine p.1 p.2)) ++ "\n\n") := by
    unfold table_to_markdown
    dsimp only
    rw [if_neg (by simp [hrowsE]), if_pos hkv, hkvrows]
    rfl
  have hsafe2 : ∀ r ∈ convGrid t, goodRow r = true := List.all_eq_true.mp hsafe
  have h0 : goodRow [p0.1, p0.2] = true := by
    apply hsafe2
    rw [hgrid]
    exact List.mem_map.mpr ⟨p0, List.mem_cons_self p0 ps, rfl⟩
  have hrowps : ∀ p ∈ ps, goodRow [p.1, p.2] = true := by
    intro p hp
    apply hsafe2
    rw [hgrid]
    exact List.mem_map.mpr ⟨p, List.mem_cons_of_mem p0 hp, rfl⟩
  have hmem : ∀ l ∈ kvLine p0.1 p0.2 :: "| --- | --- |" ::
      ps.map (fun p => kvLine p.1 p.2),
      l = kvLine p0.1 p0.2 ∨ l = "| --- | --- |" ∨
        ∃ p ∈ ps, l = kvLine p.1 p.2 := by
    intro l hl
    rcases List.mem_cons.mp hl with h1 | h1
    · exact Or.inl h1
    rcases List.mem_cons.mp h1 with h2 | h2
    · exact Or.inr (Or.inl h2)
    rcases List.mem_map.mp h2 with ⟨p, hp, hpe⟩
    exact Or.inr (Or.inr ⟨p, hp, hpe.symm⟩)
  have hTnl : ∀ l ∈ kvLine p0.1 p0.2 ::
      "| --- | --- |" :: ps.map (fun p => kvLine p.1 p.2),
      ∀ c ∈ l.toList, ¬ c = '\n' := by
    intro l hl
    rcases hmem l hl with h1 | h1 | ⟨p, hp, h1⟩
    · subst h1; exact kvLine_no_nl p0 h0
    · subst h1; exact kv_sep_no_nl
    · subst h1; exact kvLine_no_nl p (hrowps p hp)
  have hTr : ∀ l ∈ kvLine p0.1 p0.2 :: "| --- | --- |" ::
      ps.map (fun p => kvLine p.1 p.2), pyRstrip l = l := by
    intro l hl
    rcases hmem l hl with h1 | h1 | ⟨p, hp, h1⟩
    · subst h1; exact kvLine_rstrip p0
    · subst h1; exact kv_sep_rstrip
    · subst h1; exact kvLine_rstrip p
  have hTt : ∀ l ∈ kvLine p0.1 p0.2 :: "| --- | --- |" ::
      ps.map (fun p => kvLine p.1 p.2), is_table_line l = true := by
    intro l hl
    rcases hmem l hl with h1 | h1 | ⟨p, hp, h1⟩
    · subst h1; exact kvLine_is_table p0 h0
    · subst h1; exact kv_sep_is_table
    · subst h1; exact kvLine_is_table p (hrowps p hp)
  have hflushkv := flush_kv_block p0 ps h0 hrowps
  have hext := extract_emitted_nopre _ _ hTnl hTr hTt
    (List.cons_ne_nil _ _) hflushkv
  unfold convMd
  rw [hmd, hgrid]
  rw [show (List.map (fun p => [p.1, p.2]) (p0 :: ps) : List (List String)) =
    [p0.1, p0.2] :: ps.map (fun p => [p.1, p.2]) from rfl]
  exact hext

theorem tableRegularE_ok (t : HtmlTable) (cap : String) (H : List String)
    (D : List (List String)) (M : Nat)
    (hbuild : buildRegularGo t.rows ([], [], 0) = Except.ok (H, D, M))
    (hHD : (H.isEmpty && D.isEmpty) = false) :
    tableRegularE t cap = Except.ok (joinBy "\n"
      ((if cap ≠ "" then ["**" ++ cap ++ "**\n"] else []) ++
        [joinBy "\n" (regularLines H D M)]) ++ "\n\n") := by
  unfold tableRegularE
  rw [hbuild]
  show (if H.isEmpty && D.isEmpty then Except.ok ""
    else Except.ok (joinBy "\n"
      ((if cap ≠ "" then ["**" ++ cap ++ "**\n"] else []) ++
        [joinBy "\n" (regularLines H D M)]) ++ "\n\n")) = _
  rw [if_neg (by simp [hHD])]

theorem header_block_props (g0 : List String) (gs : List (List String))
    (n : Nat) (hn : 2 ≤ n) (h0 : goodRow g0 = true)
    (hrow : ∀ r ∈ gs, goodRow r = true) :
    (∀ l ∈ rowLine g0 :: sepLine n :: gs.map rowLine,
      ∀ c ∈ l.toList, ¬ c = '\n') ∧
    (∀ l ∈ rowLine g0 :: sepLine n :: gs.map rowLine, pyRstrip l = l) ∧
    (∀ l ∈ rowLine g0 :: sepLine n :: gs.map rowLine,
      is_table_line l = true) := by
  have hmem : ∀ l ∈ rowLine g0 :: sepLine n :: gs.map rowLine,
      l = rowLine g0 ∨ l = sepLine n ∨ ∃ r ∈ gs, l = rowLine r := by
    intro l hl
    rcases List.mem_cons.mp hl with h1 | h1
    · exact Or.inl h1
    rcases List.mem_cons.mp h1 with h2 | h2
    · exact Or.inr (Or.inl h2)
    rcases List.mem_map.mp h2 with ⟨r, hr, hre⟩
    exact Or.inr (Or.inr ⟨r, hr, hre.symm⟩)
  refine ⟨?_, ?_, ?_⟩
  · intro l hl
    rcases hmem l hl with h1 | h1 | ⟨r, hr, h1⟩
    · subst h1; exact rowLine_no_nl g0 h0
    · subst h1; exact sepLine_no_nl n (by omega)
    · subst h1; exact rowLine_no_nl r (hrow r hr)
  · intro l hl
    rcases hmem l hl with h1 | h1 | ⟨r, hr, h1⟩
    · subst h1; exact rowLine_rstrip g0 h0
    · subst h1; exact sepLine_rstrip n (by omega)
    · subst h1; exact rowLine_rstrip r (hrow r hr)
  · intro l hl
    rcases hmem l hl with h1 | h1 | ⟨r, hr, h1⟩
    · subst h1; exact rowLine_is_table g0 h0
    · subst h1; exact sepLine_is_table n hn
    · subst h1; exact rowLine_is_table r (hrow r hr)

theorem sep_block_props (gs : List (List String)) (n : Nat) (hn : 2 ≤ n)
    (hrow : ∀ r ∈ gs, goodRow r = true) :
    (∀ l ∈ sepLine n :: gs.map rowLine, ∀ c ∈ l.toList, ¬ c = '\n') ∧
    (∀ l ∈ sepLine n :: gs.map rowLine, pyRstrip l = l) ∧
    (∀ l ∈ sepLine n :: gs.map rowLine, is_table_line l = true) := by
  have hmem : ∀ l ∈ sepLine n :: gs.map rowLine,
      l = sepLine n ∨ ∃ r ∈ gs, l = rowLine r := by
    intro l hl
    rcases List.mem_cons.mp hl with h1 | h1
    · exact Or.inl h1
    rcases List.mem_map.mp h1 with ⟨r, hr, hre⟩
    exact Or.inr ⟨r, hr, hre.symm⟩
  refine ⟨?_, ?_, ?_⟩
  · intro l hl
    rcases hmem l hl with h1 | ⟨r, hr, h1⟩
    · subst h1; exact sepLine_no_nl n (by omega)
    · subst h1; exact rowLine_no_nl r (hrow r hr)
  · intro l hl
    rcases hmem l hl with h1 | ⟨r, hr, h1⟩
    · subst h1; exact sepLine_rstrip n (by omega)
    · subst h1; exact rowLine_rstrip r (hrow r hr)
  · intro l hl
    rcases hmem l hl with h1 | ⟨r, hr, h1⟩
    · subst h1; exact sepLine_is_table n hn
    · subst h1; exact rowLine_is_table r (hrow r hr)

theorem regular_md_extract (t : HtmlTable) (H : List String)
    (D : List (List String)) (M : Nat) (T : List String)
    (g : List (List String))
    (hrowsE : t.rows.isEmpty = false)
    (hkv : isKeyValueShape t = false)
    (hbuild : buildRegularGo t.rows ([], [], 0) = Except.ok (H, D, M))
    (hHD : (H.isEmpty && D.isEmpty) = false)
    (hcap : captionSafe t = true)
    (hlines : regularLines H D M = T)
    (hnl : ∀ l ∈ T, ∀ c ∈ l.toList, ¬ c = '\n')
    (hT_r : ∀ l ∈ T, pyRstrip l = l)
    (hT_t : ∀ l ∈ T, is_table_line l = true)
    (hTne : T ≠ [])
    (hflush : flushResult T = [g]) :
    extract_tables_from_markdown (convMd t) = [g] := by
  have hmd0 : table_to_markdown t = tableRegularE t (captionText t) := by
    unfold table_to_markdown
    dsimp only
    rw [if_neg (by simp [hrowsE]), if_neg (by simp [hkv])]
    rfl
  have hfull := hmd0.trans (tableRegularE_ok t (captionText t) H D M
    hbuild hHD)
  by_cases hcape : captionText t = ""
  · unfold convMd
    rw [hfull]
    rw [if_neg (by simp [hcape])]
    rw [List.nil_append]
    rw [show joinBy "\n" [joinBy "\n" (regularLines H D M)] =
      joinBy "\n" (regularLines H D M) from rfl]
    rw [hlines]
    exact extract_emitted_nopre _ _ hnl hT_r hT_t hTne hflush
  · unfold convMd
    rw [hfull]
    rw [if_pos hcape]
    rw [hlines]
    rw [show ["**" ++ captionText t ++ "**\n"] ++ [joinBy "\n" T] =
      ["**" ++ captionText t ++ "**\n", joinBy "\n" T] from rfl]
    rw [caption_md_eq (captionText t) T hTne]
    rw [show ((("**" ++ captionText t ++ "**") :: "" :: []) ++ T) =
      ("**" ++ captionText t ++ "**") :: "" :: T from rfl]
    exact extract_emitted_withcap (captionText t) _ _
      (by unfold captionSafe at hcap; exact hcap) hnl hT_r hT_t hTne hflush

theorem regular_path (t : HtmlTable) (H : List String)
    (D : List (List String)) (M : Nat)
    (hrowsE : t.rows.isEmpty = false)
    (hkv : isKeyValueShape t = false)
    (hbuild : buildRegularGo t.rows ([], [], 0) = Except.ok (H, D, M))
    (hHD : (H.isEmpty && D.isEmpty) = false)
    (hsafe : (convGrid t).all goodRow = true)
    (hcap : captionSafe t = true) :
    extract_tables_from_markdown (convMd t) = [convGrid t] := by
  have hsafe2 : ∀ r ∈ convGrid t, goodRow r = true := List.all_eq_true.mp hsafe
  by_cases hH : H.isEmpty = true
  · -- no header row was found: the separator comes first
    have hDne : D.isEmpty = false := by
      rw [hH] at hHD
      simpa using hHD
    have hgrid : convGrid t = D.map (fun r => (padTo M r).take M) := by
      unfold convGrid
      rw [if_neg (by simp [hrowsE]), if_neg (by simp [hkv]), hbuild]
      dsimp only
      rw [if_neg (by simp [hHD]), if_neg (by simp [hH])]
    have hrow : ∀ r ∈ D.map (fun r => (padTo M r).take M), goodRow r = true := by
      intro r hr
      apply hsafe2
      rw [hgrid]
      exact hr
    have hgsne : D.map (fun r => (padTo M r).take M) ≠ [] := by
      intro hc
      rw [List.map_eq_nil_iff] at hc
      rw [hc] at hDne
      cases hDne
    have hw : 2 ≤ M := by
      have hDne2 : D ≠ [] := by
        intro hc
        rw [hc] at hDne
        exact absurd hDne (by decide)
      rcases List.exists_cons_of_ne_nil hDne2 with ⟨d0, ds, hd⟩
      have hg0 : goodRow ((padTo M d0).take M) = true := by
        apply hrow
        exact List.mem_map.mpr ⟨d0,
          by rw [hd]; exact List.mem_cons_self d0 ds, rfl⟩
      have hlen := (goodRow_props _ hg0).1
      rw [length_padTake] at hlen
      exact hlen
    have hlines : regularLines H D M = sepLine M ::
        (D.map (fun r => (padTo M r).take M)).map rowLine := by
      unfold regularLines
      rw [if_neg (by simp [hH])]
      rw [List.map_map]
      rfl
    rcases sep_block_props (D.map (fun r => (padTo M r).take M)) M hw hrow
      with ⟨hnl, hT_r, hT_t⟩
    have hflush := flush_sep_block (D.map (fun r => (padTo M r).take M)) M
      hw hgsne hrow
    rw [hgrid]
    exact regular_md_extract t H D M _ _ hrowsE hkv hbuild hHD hcap hlines
      hnl hT_r hT_t (List.cons_ne_nil _ _) hflush
  · -- a header row exists: header line, then the separator
    have hH2 : H.isEmpty = false := by
      cases h : H.isEmpty with
      | false => rfl
      | true => exact absurd h hH
    have hgrid : convGrid t = padTo M H ::
        D.map (fun r => (padTo (padTo M H).length r).take
          (padTo M H).length) := by
      unfold convGrid
      rw [if_neg (by simp [hrowsE]), if_neg (by simp [hkv]), hbuild]
      dsimp only
      rw [if_neg (by simp [hHD]), if_pos (by simp [hH2])]
    have h0 : goodRow (padTo M H) = true := by
      apply hsafe2
      rw [hgrid]
      exact List.mem_cons_self _ _
    have hrow : ∀ r ∈ D.map (fun r => (padTo (padTo M H).length r).take
        (padTo M H).length), goodRow r = true := by
      intro r hr
      apply hsafe2
      rw [hgrid]
      exact List.mem_cons_of_mem _ hr
    have hw : 2 ≤ (padTo M H).length := (goodRow_props _ h0).1
    have hlines : regularLines H D M = rowLine (padTo M H) ::
        sepLine (padTo M H).length ::
        (D.map (fun r => (padTo (padTo M H).length r).take
          (padTo M H).length)).map rowLine := by
      unfold regularLines
      rw [if_pos (by simp [hH2])]
      rw [List.map_map]
      rfl
    rcases header_block_props (padTo M H)
      (D.map (fun r => (padTo (padTo M H).length r).take
        (padTo M H).length)) (padTo M H).length hw h0 hrow
      with ⟨hnl, hT_r, hT_t⟩
    have hflush := flush_header_block (padTo M H)
      (D.map (fun r => (padTo (padTo M H).length r).take
        (padTo M H).length)) (padTo M H).length hw h0 hrow
    rw [hgrid]
    exact regular_md_extract t H D M _ _ hrowsE hkv hbuild hHD hcap hlines
      hnl hT_r hT_t (List.cons_ne_nil _ _) hflush

/-- C4: the round-trip claim as amended.  For every HTML table whose
emitted grid is non-empty, has at least two columns in every row, carries
only pipe-free backslash-free single-line cells that are not entirely
separator characters, and whose caption (if any) is pipe-free and
newline-free, re-parsing the emitted markdown with
`extract_tables_from_markdown` yields exactly one grid, equal to the grid
the converter emitted (the synthetic separator row is not part of it), so
in particular the row and column counts agree. -/
theorem c4_round_trip_amended (t : HtmlTable)
    (hne : convGrid t ≠ [])
    (hsafe : (convGrid t).all goodRow = true)
    (hcap : captionSafe t = true) :
    extract_tables_from_markdown (convMd t) = [convGrid t] := by
  cases hrows : t.rows.isEmpty with
  | true =>
    exfalso
    apply hne
    unfold convGrid
    rw [if_pos hrows]
  | false =>
    cases hkv : isKeyValueShape t with
    | true => exact kv_path t hkv hne hsafe
    | false =>
      cases hbuild : buildRegularGo t.rows ([], [], 0) with
      | error e =>
        exfalso
        apply hne
        unfold convGrid
        rw [if_neg (by simp [hrows]), if_neg (by simp [hkv]), hbuild]
      | ok st =>
        obtain ⟨H, D, M⟩ := st
        cases hHD : H.isEmpty && D.isEmpty with
        | true =>
          exfalso
          apply hne
          unfold convGrid
          rw [if_neg (by simp [hrows]), if_neg (by simp [hkv]), hbuild]
          dsimp only
          rw [if_pos hHD]
        | false => exact regular_path t H D M hrows hkv hbuild hHD hsafe hcap

/-- C4 counterexample to the claim as written: a one-row one-cell HTML
table is emitted as a one-column pipe table, whose lines split into a
single cell, so `is_table_line` rejects them and the extractor returns no
grid at all instead of one grid with equal counts. -/
theorem c4_round_trip_counterexample :
    convMd ⟨none, [[⟨false, none, false, none, "hello"⟩]]⟩ =
      "| --- |\n| hello |\n\n" ∧
    convGrid ⟨none, [[⟨false, none, false, none, "hello"⟩]]⟩ = [["hello"]] ∧
    extract_tables_from_markdown
      (convMd ⟨none, [[⟨false, none, false, none, "hello"⟩]]⟩) = [] := by
  refine ⟨by decide, by decide, by decide⟩

/-- C4 witness: a captioned three-column header table satisfies the
amended theorem's hypotheses, and its markdown re-parses to exactly its
emitted grid. -/
theorem c4_round_trip_amended_witness :
    (convGrid ⟨some "My Caption",
        [[⟨true, none, false, none, "Name"⟩, ⟨true, none, false, none, "Age"⟩,
          ⟨true, none, false, none, "City"⟩],
         [⟨false, none, false, none, "Alice"⟩,
          ⟨false, none, false, none, "30"⟩,
          ⟨false, none, false, none, "Paris"⟩]]⟩ ≠ []) ∧
    extract_tables_from_markdown (convMd ⟨some "My Caption",
        [[⟨true, none, false, none, "Name"⟩, ⟨true, none, false, none, "Age"⟩,
          ⟨true, none, false, none, "City"⟩],
         [⟨false, none, false, none, "Alice"⟩,
          ⟨false, none, false, none, "30"⟩,
          ⟨false, none, false, none, "Paris"⟩]]⟩) =
      [convGrid ⟨some "My Caption",
        [[⟨true, none, false, none, "Name"⟩, ⟨true, none, false, none, "Age"⟩,
          ⟨true, none, false, none, "City"⟩],
         [⟨false, none, false, none, "Alice"⟩,
          ⟨false, none, false, none, "30"⟩,
          ⟨false, none, false, none, "Paris"⟩]]⟩] :=
  ⟨by decide, c4_round_trip_amended _ (by decide) (by decide) (by decide)⟩

end MarkdownFilter
